/-
Verification development for the `river` streaming-learning core.

Shallow embedding of:
  * `river/tree/_attribute_observer/numeric_attribute_class_observer_binary_tree.py`
    (the exhaustive binary-search-tree attribute observer for classification), and
  * `river/ensemble/adaptive_random_forest.py`
    (the adaptive random forest ensembles, their members and aggregation logic).

Modelling conventions:
  * Python floats are modelled as rationals (`ℚ`); class labels as `ℕ`.
  * The class counts stored in tree nodes (`defaultdict(float)`, written only
    through `+=`) are total functions `Label → ℚ`; an untouched key reads 0.
    Node counts are only ever consumed as the second argument of a `Counter`
    operation, where a key present with value 0 behaves exactly like an
    absent key, so this representation loses nothing.
  * The dict/`Counter` dance of `_search_for_best_split_option`
    (`d.update(dict(Counter(a) ± Counter(b)))`) is modelled exactly by
    `PyDict := Label → Option ℚ`: `Counter` addition and subtraction keep
    only strictly positive entries, and `dict.update` overwrites only the
    keys present in its argument, so a key whose difference is exactly zero
    keeps its stale old value.  This is the behaviour that makes the search
    diverge from the naive re-scan.  The intended delta-propagation
    algorithm with exact distribution arithmetic — as the code's own
    comments ("get the exact statistics of the parent value") and the
    documented design describe it — is kept alongside under `ideal*` names
    and proved exact, showing the divergence is a slip in the
    implementation, not in the algorithm.
  * A Python `None` child pointer is the `nil` constructor of the tree type.
  * External collaborators (numpy RNG, Hoeffding trees, drift detectors,
    metrics) are abstracted as deterministic state machines, matching the
    spec's treatment of them as black-box capabilities.
-/
import Mathlib

namespace RiverSpec

/-! ### Part 1: definitions — BST attribute observer -/

/-- Class labels (Python class values). -/
abbrev Label := ℕ

/-- A class distribution: `defaultdict(float)` mapping label to cumulative weight. -/
abbrev ClassDist := Label → ℚ

/-- The empty distribution. -/
def ClassDist.zero : ClassDist := fun _ => 0

/-- `d[label] += w` on a distribution. -/
def distAdd (d : ClassDist) (lab : Label) (w : ℚ) : ClassDist :=
  fun l => if l = lab then d l + w else d l

/-- The distribution holding weight `w` for label `lab` only. -/
def distSingle (lab : Label) (w : ℚ) : ClassDist :=
  fun l => if l = lab then w else 0

/-- One raw observation fed to `update(att_val, class_val, sample_weight)`. -/
structure Obs where
  val : ℚ
  label : Label
  weight : ℚ
  deriving DecidableEq

/-- The binary search tree of
`NumericAttributeClassObserverBinaryTree.Node`: `cut_point`,
`class_count_left`, `class_count_right`, and the two optional children
(`nil` models a Python `None` child, and also the observer's empty root). -/
inductive BTree where
  | nil
  | node (cutPoint : ℚ) (ccLeft ccRight : ClassDist) (l r : BTree)

/-- `Node.insert_value` (and `Node.__init__` for the `nil` case): equal values
add to `class_count_left` only; smaller values add to `class_count_left` and
recurse left; larger values add to `class_count_right` and recurse right. -/
def BTree.insertValue : BTree → ℚ → Label → ℚ → BTree
  | .nil, v, lab, w => .node v (distSingle lab w) ClassDist.zero .nil .nil
  | .node c cl cr l r, v, lab, w =>
    if v = c then .node c (distAdd cl lab w) cr l r
    else if v < c then .node c (distAdd cl lab w) cr (l.insertValue v lab w) r
    else .node c cl (distAdd cr lab w) l (r.insertValue v lab w)

/-- The observer after a sequence of `update` calls with non-`None` values
(`update` creates the root on the first call and inserts afterwards). -/
def buildTree (os : List Obs) : BTree :=
  os.foldl (fun t o => t.insertValue o.val o.label o.weight) .nil

/-- `AttributeSplitSuggestion` in the idealized exact-arithmetic search: the
chosen cut point (`none` for the initial sentinel suggestion, whose merit is
`-inf`, modelled as `⊥`), the resulting left/right class distributions and
the merit. -/
structure Suggestion where
  cutPoint : Option ℚ
  leftDist : ClassDist
  rightDist : ClassDist
  merit : WithBot ℚ

/-- A split criterion over exact distributions:
`merit_of_split(pre_split_dist, [left, right])`, a pure function as
specified at the collaborator interface. -/
abbrev Criterion := ClassDist → ClassDist → ClassDist → ℚ

/-- The initial best option
`AttributeSplitSuggestion(None, [{}], -float("inf"))`. -/
def initialSuggestion : Suggestion :=
  ⟨none, ClassDist.zero, ClassDist.zero, ⊥⟩

/-- The delta-propagation split search as the documentation describes it
(spec-side rendition for the refinement claim C1): identical traversal,
parent-context threading and best-option update as
`_search_for_best_split_option`, but with the distribution arithmetic
carried out exactly (pointwise on total functions) instead of through
Python's `dict.update(dict(Counter(a) ± Counter(b)))` (see
`searchForBestSplitOption` for the faithful rendition of the latter).
Parameters mirror the Python ones: `best` is `current_best_option`, `apl`
is `actual_parent_left`, `plr` is `parent_left`/`parent_right` (`none` at
the root), `lc` is `left_child`. -/
def idealSearchForBestSplitOption (crit : Criterion) (pre : ClassDist) :
    BTree → Suggestion → ClassDist → Option (ClassDist × ClassDist) → Bool → Suggestion
  | .nil, best, _, _, _ => best
  | .node c cl cr l r, best, apl, plr, lc =>
    let dists : ClassDist × ClassDist :=
      match plr with
      | none => (cl, cr)
      | some (pl, pr) =>
        if lc then
          let exactParent := apl - cl - cr
          (pl - cr - exactParent, pr + cr + exactParent)
        else
          (pl + cl, pr - cl)
    let m := crit pre dists.1 dists.2
    let best' := if (m : WithBot ℚ) > best.merit then ⟨some c, dists.1, dists.2, m⟩ else best
    let bestL := idealSearchForBestSplitOption crit pre l best' cl (some dists) true
    idealSearchForBestSplitOption crit pre r bestL cl (some dists) false

/-- `best_evaluated_split_suggestion` over the idealized search. -/
def idealBestEvaluatedSplitSuggestion (crit : Criterion) (pre : ClassDist) (t : BTree) : Suggestion :=
  idealSearchForBestSplitOption crit pre t initialSuggestion ClassDist.zero none false

/-- A Python `dict` with rational values: `none` means the key is absent.
Key presence matters because `dict.update` leaves keys absent from its
argument untouched. -/
abbrev PyDict := Label → Option ℚ

/-- The empty dict `{}`. -/
def emptyDict : PyDict := fun _ => none

/-- Read a dict entry as a `Counter` would (missing keys count 0). -/
def dictVal (d : PyDict) : ClassDist := fun k => (d k).getD 0

/-- `dict(Counter(a) + Counter(b))`: an entry is present in the result iff
the sum of the two counts is strictly positive (`Counter` operations keep
only positive entries).  The second operand is read by value: a key present
with count 0 contributes exactly like an absent key, so `b` can be either a
node's `defaultdict` counts or the values of another dict. -/
def counterAddD (a : PyDict) (b : ClassDist) : PyDict :=
  fun k =>
    let s := (a k).getD 0 + b k
    if 0 < s then some s else none

/-- `dict(Counter(a) - Counter(b))`: an entry survives iff the difference is
strictly positive — a difference of exactly zero is dropped from the result
(and a later `dict.update` will then leave the stale old value in place). -/
def counterSubD (a : PyDict) (b : ClassDist) : PyDict :=
  fun k =>
    let s := (a k).getD 0 - b k
    if 0 < s then some s else none

/-- `d.update(new)`: keys present in `new` are overwritten, all other keys of
`d` keep their old values. -/
def dictUpdate (d new : PyDict) : PyDict :=
  fun k =>
    match new k with
    | some v => some v
    | none => d k

/-- `AttributeSplitSuggestion` as the code manipulates it: the resulting
distributions are Python dicts. -/
structure PySuggestion where
  cutPoint : Option ℚ
  leftDist : PyDict
  rightDist : PyDict
  merit : WithBot ℚ

/-- A split criterion consuming the dicts the search hands it. -/
abbrev PyCriterion := PyDict → PyDict → PyDict → ℚ

/-- The initial best option
`AttributeSplitSuggestion(None, [{}], -float("inf"))`. -/
def pyInitialSuggestion : PySuggestion :=
  ⟨none, emptyDict, emptyDict, ⊥⟩

/-- `_search_for_best_split_option`, faithful to the source line by line:
every `x.update(dict(Counter(x) ± Counter(y)))` is a `dictUpdate` with a
`counterAddD`/`counterSubD` argument, in the source's order (the
`exact_parent_dist` accumulation first, then the subtree moves, then the
exact-value moves).  `best` is `current_best_option`, `apl` is
`actual_parent_left` (a node's `defaultdict` counts), `plr` is
`parent_left`/`parent_right` (`none` at the root), `lc` is `left_child`. -/
def searchForBestSplitOption (crit : PyCriterion) (pre : PyDict) :
    BTree → PySuggestion → ClassDist → Option (PyDict × PyDict) → Bool → PySuggestion
  | .nil, best, _, _, _ => best
  | .node c cl cr l r, best, apl, plr, lc =>
    let dists : PyDict × PyDict :=
      match plr with
      | none =>
        (dictUpdate emptyDict (counterAddD emptyDict cl),
         dictUpdate emptyDict (counterAddD emptyDict cr))
      | some (pl, pr) =>
        let ld0 := dictUpdate emptyDict (counterAddD emptyDict (dictVal pl))
        let rd0 := dictUpdate emptyDict (counterAddD emptyDict (dictVal pr))
        if lc then
          let e0 := dictUpdate emptyDict (counterAddD emptyDict apl)
          let e1 := dictUpdate e0 (counterSubD e0 cl)
          let e2 := dictUpdate e1 (counterSubD e1 cr)
          let ld1 := dictUpdate ld0 (counterSubD ld0 cr)
          let rd1 := dictUpdate rd0 (counterAddD rd0 cr)
          let rd2 := dictUpdate rd1 (counterAddD rd1 (dictVal e2))
          let ld2 := dictUpdate ld1 (counterSubD ld1 (dictVal e2))
          (ld2, rd2)
        else
          (dictUpdate ld0 (counterAddD ld0 cl), dictUpdate rd0 (counterSubD rd0 cl))
    let m := crit pre dists.1 dists.2
    let best' :=
      if (m : WithBot ℚ) > best.merit then (⟨some c, dists.1, dists.2, m⟩ : PySuggestion)
      else best
    let bestL := searchForBestSplitOption crit pre l best' cl (some dists) true
    searchForBestSplitOption crit pre r bestL cl (some dists) false

/-- `best_evaluated_split_suggestion(criterion, pre_split_dist, ...)` over
the faithful search. -/
def bestEvaluatedSplitSuggestion (crit : PyCriterion) (pre : PyDict) (t : BTree) : PySuggestion :=
  searchForBestSplitOption crit pre t pyInitialSuggestion ClassDist.zero none false

/-- Brute-force class distribution of the observations whose value satisfies
`p`, label by label (the naive re-scan of all raw observations). -/
def distOfB (os : List Obs) (p : ℚ → Bool) : ClassDist :=
  fun lab => (os.map (fun o => if p o.val && (o.label == lab) then o.weight else 0)).sum

/-- Brute-force left distribution for cut point `c`: observations with `val ≤ c`. -/
def leftDistOf (os : List Obs) (c : ℚ) : ClassDist :=
  distOfB os (fun v => decide (v ≤ c))

/-- Brute-force right distribution for cut point `c`: observations with `val > c`. -/
def rightDistOf (os : List Obs) (c : ℚ) : ClassDist :=
  distOfB os (fun v => decide (c < v))

/-- The brute-force class distribution as a dict: a label is a key iff some
observation with that label falls in the part, with the part's total weight
for that label as its value — what a naive re-scan building a dict
produces. -/
def pyDistOfB (os : List Obs) (p : ℚ → Bool) : PyDict :=
  fun lab =>
    if (os.filter (fun o => p o.val && (o.label == lab))).isEmpty then none
    else some (distOfB os p lab)

/-- Brute-force left partition (`val ≤ c`) as a dict. -/
def pyLeftDistOf (os : List Obs) (c : ℚ) : PyDict :=
  pyDistOfB os (fun v => decide (v ≤ c))

/-- Brute-force right partition (`val > c`) as a dict. -/
def pyRightDistOf (os : List Obs) (c : ℚ) : PyDict :=
  pyDistOfB os (fun v => decide (c < v))

/-- The weight-1 observations (5, B), (4, A), (3, B) with A = label 0 and
B = label 1: inserting them builds the chain 5 → 4 → 3 of left children, on
which the search's `Counter` subtraction drops an exact-zero difference and
`dict.update` keeps the stale value. -/
def c1Obs : List Obs := [⟨5, 1, 1⟩, ⟨4, 0, 1⟩, ⟨3, 1, 1⟩]

/-- A split criterion reading the weight of class A (label 0) on the right
side of the split (missing keys read 0, as `merit_of_split` would). -/
def critRightA : PyCriterion := fun _ _ r => (r 0).getD 0

/-- Every cut point stored in the tree (one per node, i.e. one per distinct
observed value). -/
def cutPoints : BTree → List ℚ
  | .nil => []
  | .node c _ _ l r => c :: (cutPoints l ++ cutPoints r)

/-- Maximum of a list of merits, `⊥` for the empty list. -/
def listMax (l : List ℚ) : WithBot ℚ :=
  l.foldr (fun a acc => max (a : WithBot ℚ) acc) ⊥

/-- Total weight ever inserted into the observer. -/
def totalWeight (os : List Obs) : ℚ :=
  (os.map Obs.weight).sum

/-- The distinct labels occurring in the observations. -/
def labelsOf (os : List Obs) : List Label :=
  (os.map Obs.label).dedup

/-- Python `sum(counter.values())` relative to a label universe `L`. -/
def sumDistOver (L : List Label) (d : ClassDist) : ℚ :=
  (L.map d).sum

/-- `sum(class_count_left) + sum(class_count_right)` summed over every node
of the whole tree. -/
def treeWeightSum (L : List Label) : BTree → ℚ
  | .nil => 0
  | .node _ cl cr l r =>
      sumDistOver L cl + sumDistOver L cr + treeWeightSum L l + treeWeightSum L r

/-- `sum(class_count_left) + sum(class_count_right)` at the root only. -/
def rootWeightSum (L : List Label) : BTree → ℚ
  | .nil => 0
  | .node _ cl cr _ _ => sumDistOver L cl + sumDistOver L cr

/-- Every class weight stored anywhere in the tree is non-negative. -/
def nodesNonneg : BTree → Prop
  | .nil => True
  | .node _ cl cr l r =>
      (∀ lab, 0 ≤ cl lab ∧ 0 ≤ cr lab) ∧ nodesNonneg l ∧ nodesNonneg r

/-- `lo < v` over the open lower bound of a subtree's interval. -/
def inLb (lo : WithBot ℚ) (v : ℚ) : Bool :=
  decide (lo < (v : WithBot ℚ))

/-- `v < hi` over the open upper bound of a subtree's interval. -/
def inRb (hi : WithTop ℚ) (v : ℚ) : Bool :=
  decide ((v : WithTop ℚ) < hi)

/-- Structural invariant of the observer's tree relative to the inserted
observations `os`: a subtree responsible for the open value interval
`(lo, hi)` has its cut point inside the interval, its `class_count_left`
equal to the brute-force distribution of observations with value in
`(lo, cut]`, its `class_count_right` equal to that of `(cut, hi)`, and its
children responsible for `(lo, cut)` and `(cut, hi)`. -/
inductive Inv (os : List Obs) : WithBot ℚ → WithTop ℚ → BTree → Prop
  | nil {lo hi} (h : ∀ o ∈ os, ¬(inLb lo o.val && inRb hi o.val) = true) :
      Inv os lo hi .nil
  | node {lo hi c cl cr l r}
      (hcl : inLb lo c = true) (hcr : inRb hi c = true)
      (hl : cl = distOfB os (fun v => inLb lo v && decide (v ≤ c)))
      (hr : cr = distOfB os (fun v => decide (c < v) && inRb hi v))
      (hsubl : Inv os lo (c : WithTop ℚ) l)
      (hsubr : Inv os (c : WithBot ℚ) hi r) :
      Inv os lo hi (.node c cl cr l r)

/-! ### Part 1b: definitions — `_set_max_features` resolution -/

/-- The possible Python values of the `max_features` parameter.  `mfStr`
covers `"sqrt"`, `"log2"` and invalid strings; booleans behave as integers in
Python and are subsumed by `mfInt`. -/
inductive MaxFeatures where
  | mfStr (s : String)
  | mfInt (z : ℤ)
  | mfFloat (q : ℚ)
  | mfNone
  deriving DecidableEq

/-- `round(math.sqrt(n))` for a natural `n`, computed exactly: the nearest
integer to `√n` (the tie `√n = k + 1/2` is impossible for integer `n`, so
Python's round-half-even never meets a half). -/
def natSqrtRound (n : ℕ) : ℕ :=
  (Nat.sqrt (4 * n) + 1) / 2

/-- `round(math.log2(n))` for `n ≥ 1`, computed exactly: the nearest integer
to `log₂ n` (the tie `log₂ n = k + 1/2` would force `n² = 2^(2k+1)`, which is
impossible for integer `n`). -/
def natLog2Round (n : ℕ) : ℕ :=
  let k := Nat.log 2 n
  if n ^ 2 < 2 ^ (2 * k + 1) then k else k + 1

/-- Python `int(q)`: truncation toward zero. -/
def pyInt (q : ℚ) : ℤ :=
  if 0 ≤ q then ⌊q⌋ else ⌈q⌉

/-- The if/elif chain of `_set_max_features` before the sanity checks:
`"sqrt"` and `"log2"` by string comparison, integers as-is, floats as a
fraction of `n_features`, `None` as all features, anything else raises
`AttributeError`. -/
def rawMaxFeatures (mf : MaxFeatures) (n : ℕ) : Except String ℤ :=
  match mf with
  | .mfStr s =>
    if s = "sqrt" then .ok (natSqrtRound n)
    else if s = "log2" then .ok (natLog2Round n)
    else .error "Invalid max_features"
  | .mfInt z => .ok z
  | .mfFloat q => .ok (pyInt (q * n))
  | .mfNone => .ok n

/-- `BaseForest._set_max_features(n_features)`: resolve the configured
`max_features` to a feature count, raising `AttributeError` on an invalid
value, then apply the sanity checks (`+ n` for negative results, floor at 1,
cap at `n`).  Returns the resolved value stored back into the forest. -/
def setMaxFeatures (mf : MaxFeatures) (n : ℕ) : Except String ℤ :=
  match rawMaxFeatures mf n with
  | .error e => .error e
  | .ok v =>
    let v := if v < 0 then v + n else v
    let v := if v ≤ 0 then 1 else v
    let v := if v > (n : ℤ) then (n : ℤ) else v
    .ok v

/-- Modelled from the claim's words (not the source): the resolution formula
as C8 states it — `round(sqrt n)`, `round(log2 n)`, the integer itself for a
non-negative integer, `value + n` for a negative integer, `int(value * n)`
for a float, `n` for `None` — followed by the claimed clamp into `[1, n]`
(`≤ 0` becomes 1, `> n` becomes `n`).  Used to exhibit where the claim and
the code disagree. -/
def claimResolve (mf : MaxFeatures) (n : ℕ) : Except String ℤ :=
  let raw : Except String ℤ :=
    match mf with
    | .mfStr s =>
      if s = "sqrt" then .ok (natSqrtRound n)
      else if s = "log2" then .ok (natLog2Round n)
      else .error "Invalid max_features"
    | .mfInt z => if z ≥ 0 then .ok z else .ok (z + n)
    | .mfFloat q => .ok (pyInt (q * n))
    | .mfNone => .ok n
  match raw with
  | .error e => .error e
  | .ok v =>
    let v := if v ≤ 0 then 1 else v
    let v := if v > (n : ℤ) then (n : ℤ) else v
    .ok v

/-- The amended resolution policy: as in the claim, except that the `+ n`
adjustment applies to any negative resolved value (whether it came from a
negative integer or from a float whose product is negative) before the
clamp into `[1, n]` (floor at 1, cap at `n`). -/
def amendedResolve (mf : MaxFeatures) (n : ℕ) : Except String ℤ :=
  match rawMaxFeatures mf n with
  | .error e => .error e
  | .ok v =>
    let v1 := if v < 0 then v + n else v
    .ok (if v1 ≤ 0 then 1 else min v1 (n : ℤ))

/-! ### Part 1c: definitions — ensemble prediction aggregation -/

/-- `AdaptiveRandomForestClassifier.predict_proba_one`, aggregation step:
each member contributes its probability vector, scaled by its metric value
when the weighted vote is enabled and the metric value is positive; the
`Counter.update` accumulation is a pointwise sum.  Each member is given by
its `predict_proba_one` output and its `metric.get()` value. -/
def classifierVoteScores (disable : Bool)
    (members : List ((Label → ℚ) × ℚ)) : Label → ℚ :=
  fun lab =>
    (members.map (fun pm =>
      if !disable && pm.2 > 0 then pm.1 lab * pm.2 else pm.1 lab)).sum

/-- `AdaptiveRandomForestClassifier.predict_proba_one`, normalization step:
divide by the total over the label universe `L` when positive, otherwise
return the unnormalized scores. -/
def classifierPredictProba (disable : Bool)
    (members : List ((Label → ℚ) × ℚ)) (L : List Label) : Label → ℚ :=
  let s := classifierVoteScores disable members
  let total := (L.map s).sum
  if total > 0 then fun lab => s lab / total else s

/-- Insert into a sorted list (ascending). -/
def insertAsc (a : ℚ) : List ℚ → List ℚ
  | [] => [a]
  | b :: bs => if a ≤ b then a :: b :: bs else b :: insertAsc a bs

/-- Insertion sort, ascending. -/
def sortAsc : List ℚ → List ℚ
  | [] => []
  | a :: as => insertAsc a (sortAsc as)

/-- `np.median`: sort, take the middle element for odd length, the mean of
the two middle elements for even length (0 for the empty list, unused). -/
def npMedian (l : List ℚ) : ℚ :=
  let s := sortAsc l
  let n := l.length
  if n = 0 then 0
  else if n % 2 = 1 then s.getD (n / 2) 0
  else (s.getD (n / 2 - 1) 0 + s.getD (n / 2) 0) / 2

/-- The regressor's `aggregation_method` values. -/
inductive AggMethod where
  | mean
  | median
  deriving DecidableEq

/-- `AdaptiveRandomForestRegressor.predict_one`, aggregation over the member
predictions (`preds`) and their `metric.get()` values (`metrics`): when the
weighted vote is enabled and the metric sum is non-zero, each prediction is
multiplied by its normalized `(sum - metric)` weight; then the mean or the
median of the (possibly weighted) vector is returned. -/
def regressorPredictAgg (agg : AggMethod) (disable : Bool)
    (preds metrics : List ℚ) : ℚ :=
  let y :=
    if !disable then
      let sumWeights := metrics.sum
      if sumWeights ≠ 0 then
        let ws := metrics.map (fun w => sumWeights - w)
        let wsn := ws.map (fun w => w / ws.sum)
        List.zipWith (· * ·) preds wsn
      else preds
    else preds
  match agg with
  | .mean => y.sum / y.length
  | .median => npMedian y

/-! ### Part 1d: definitions — forest members and the ensemble

The ensemble core is parametric in its external collaborators (numpy RNG,
base tree model, drift detector, metric, the regressor's `Var` tracker),
each a deterministic state machine, matching the spec's interface-only
treatment of them.  `X` is a feature dictionary (association list of feature
key and value), targets are rationals. -/

/-- A feature dictionary `x`. -/
abbrev XDict := List (ℕ × ℚ)

/-- Deterministic semantics of the external collaborators. -/
structure Collab (MS DS MetS VS RngS : Type) where
  rngFromSeed : ℕ → RngS
  rngRandint : RngS → ℕ × RngS
  rngPoisson : ℕ → RngS → ℕ × RngS
  newBaseModel : ℕ → MS
  modelLearn : MS → XDict → ℚ → ℕ → MS
  modelPredict : MS → XDict → ℚ
  modelPredictProba : MS → XDict → Label → ℚ
  modelClone : MS → MS
  modelNewInstance : MS → MS
  detClone : DS → DS
  detUpdate : DS → ℚ → DS
  detChange : DS → Bool
  metricUpdate : MetS → ℚ → ℚ → MetS
  metricGet : MetS → ℚ
  metricIsMultiClass : Bool
  metricCmReset : MetS → MetS
  driftInput : VS → ℚ → ℚ → ℚ × VS
  varNew : VS
  labelUniverse : List Label

/-- `if isinstance(metric, MultiClassMetric): metric.cm.reset()` applied to a
metric value. -/
def resetIfMC {MS DS MetS VS RngS} (C : Collab MS DS MetS VS RngS)
    (m : MetS) : MetS :=
  if C.metricIsMultiClass then C.metricCmReset m else m

/-- The non-recursive fields of `BaseForestMember`. -/
structure MemberCore (MS DS MetS VS : Type) where
  indexOriginal : ℕ
  model : MS
  createdOn : ℕ
  isBackground : Bool
  metric : MetS
  originalMetric : MetS
  lastDriftOn : ℕ
  lastWarningOn : ℕ
  nDrifts : ℕ
  nWarnings : ℕ
  useDriftDetector : Bool
  driftDetector : Option DS
  useBackgroundLearner : Bool
  warningDetector : Option DS
  varState : VS

/-- `BaseForestMember`: its scalar fields plus the optional
`background_learner`, which is itself a member. -/
inductive Member (MS DS MetS VS : Type) where
  | mk (core : MemberCore MS DS MetS VS) (background : Option (Member MS DS MetS VS))

/-- The non-recursive fields of a member. -/
def Member.core {MS DS MetS VS} : Member MS DS MetS VS → MemberCore MS DS MetS VS
  | .mk c _ => c

/-- The `background_learner` field of a member. -/
def Member.background {MS DS MetS VS} :
    Member MS DS MetS VS → Option (Member MS DS MetS VS)
  | .mk _ b => b

/-- `BaseForestMember.__init__`: clone the model, deep-copy the metric and
reset its confusion matrix when multiclass, remember the original metric,
no background learner, zero counters, clone the detectors, set the
`_use_*` flags from their presence (the regressor also creates a fresh
`Var`, modelled by `varNew`). -/
def memberInit {MS DS MetS VS RngS} (C : Collab MS DS MetS VS RngS)
    (indexOriginal : ℕ) (model : MS) (createdOn : ℕ)
    (driftDetector warningDetector : Option DS)
    (isBackground : Bool) (metric : MetS) : Member MS DS MetS VS :=
  .mk
    { indexOriginal := indexOriginal
      model := C.modelClone model
      createdOn := createdOn
      isBackground := isBackground
      metric := resetIfMC C metric
      originalMetric := metric
      lastDriftOn := 0
      lastWarningOn := 0
      nDrifts := 0
      nWarnings := 0
      useDriftDetector := driftDetector.isSome
      driftDetector := driftDetector.map C.detClone
      useBackgroundLearner := warningDetector.isSome
      warningDetector := warningDetector.map C.detClone
      varState := C.varNew }
    none

/-- `BaseForestMember.reset(n_samples_seen)`: promote the background learner
wholesale when one is present (and background learning is enabled),
otherwise clone-reset the model, restore the pristine original metric, stamp
`created_on` and clone the drift detector; in both branches the final
`isinstance(..., MultiClassMetric)` check resets the confusion matrix. -/
def memberReset {MS DS MetS VS RngS} (C : Collab MS DS MetS VS RngS)
    (m : Member MS DS MetS VS) (n : ℕ) : Member MS DS MetS VS :=
  let core := m.core
  let mid : MemberCore MS DS MetS VS × Option (Member MS DS MetS VS) :=
    match m.background, core.useBackgroundLearner with
    | some b, true =>
      ({ core with
          model := b.core.model
          warningDetector := b.core.warningDetector
          driftDetector := b.core.driftDetector
          metric := b.core.metric
          createdOn := b.core.createdOn }, none)
    | bg, _ =>
      ({ core with
          model := C.modelClone core.model
          metric := core.originalMetric
          createdOn := n
          driftDetector := core.driftDetector.map C.detClone }, bg)
  .mk { mid.1 with metric := resetIfMC C mid.1.metric } mid.2

/-- `BaseForestMember.learn_one(x, y, sample_weight=w, n_samples_seen=n)`:
train the model (and the background learner's model); then, unless this is a
background learner or drift detection is disabled, compute the drift input
from the post-training prediction, run the warning detector (spawning a new
background learner and cloning the warning detector on a warning), update
the drift detector, and on a detected change stamp `last_drift_on`,
increment `n_drifts_detected` and `reset`. -/
def memberLearnOne {MS DS MetS VS RngS} (C : Collab MS DS MetS VS RngS)
    (m : Member MS DS MetS VS) (x : XDict) (y : ℚ) (w n : ℕ) :
    Member MS DS MetS VS :=
  let core := m.core
  let model1 := C.modelLearn core.model x y w
  let bg1 : Option (Member MS DS MetS VS) :=
    match m.background with
    | some b => some (.mk { b.core with model := C.modelLearn b.core.model x y w } b.background)
    | none => none
  let m1 : Member MS DS MetS VS := .mk { core with model := model1 } bg1
  if core.useDriftDetector && !core.isBackground then
    let di := C.driftInput core.varState y (C.modelPredict model1 x)
    let input := di.1
    let m2 : Member MS DS MetS VS := .mk { m1.core with varState := di.2 } m1.background
    let m3 : Member MS DS MetS VS :=
      if m2.core.useBackgroundLearner then
        match m2.core.warningDetector with
        | some wd =>
          let wd1 := C.detUpdate wd input
          if C.detChange wd1 then
            let bgNew := memberInit C core.indexOriginal (C.modelNewInstance model1) n
              m2.core.driftDetector (some wd1) true m2.core.metric
            .mk
              { m2.core with
                  lastWarningOn := n
                  nWarnings := m2.core.nWarnings + 1
                  warningDetector := some (C.detClone wd1) }
              (some bgNew)
          else .mk { m2.core with warningDetector := some wd1 } m2.background
        | none => m2
      else m2
    match m3.core.driftDetector with
    | some dd =>
      let dd1 := C.detUpdate dd input
      let m4 : Member MS DS MetS VS := .mk { m3.core with driftDetector := some dd1 } m3.background
      if C.detChange dd1 then
        memberReset C
          (.mk { m4.core with lastDriftOn := n, nDrifts := m4.core.nDrifts + 1 } m4.background) n
      else m4
    | none => m3
  else m1

/-- The state of a `BaseForest` (the regressor additionally validates and
stores `aggregation_method`). -/
structure ForestState (MS DS MetS VS RngS : Type) where
  models : List (Member MS DS MetS VS)
  nModels : ℕ
  maxFeatures : MaxFeatures
  lambdaValue : ℕ
  disableWeightedVote : Bool
  driftDetector : Option DS
  warningDetector : Option DS
  metric : MetS
  aggMethod : AggMethod
  rng : RngS
  nSamplesSeen : ℕ

/-- `BaseForest.__init__`: empty model list, zero samples seen, RNG seeded
from the configured seed; `max_features` is stored unvalidated. -/
def forestNew {MS DS MetS VS RngS} (C : Collab MS DS MetS VS RngS)
    (nModels : ℕ) (maxFeatures : MaxFeatures) (lambdaValue : ℕ)
    (disableWeightedVote : Bool) (driftDetector warningDetector : Option DS)
    (metric : MetS) (aggMethod : AggMethod) (seed : ℕ) :
    ForestState MS DS MetS VS RngS :=
  { models := []
    nModels := nModels
    maxFeatures := maxFeatures
    lambdaValue := lambdaValue
    disableWeightedVote := disableWeightedVote
    driftDetector := driftDetector
    warningDetector := warningDetector
    metric := metric
    aggMethod := aggMethod
    rng := C.rngFromSeed seed
    nSamplesSeen := 0 }

/-- `AdaptiveRandomForestRegressor.__init__`: the base constructor followed
by the `aggregation_method` validation, which raises `ValueError` for any
string other than `"mean"` or `"median"`.  No `max_features` validation
happens here. -/
def arfRegressorNew {MS DS MetS VS RngS} (C : Collab MS DS MetS VS RngS)
    (nModels : ℕ) (maxFeatures : MaxFeatures) (aggregationMethod : String)
    (lambdaValue : ℕ) (disableWeightedVote : Bool)
    (driftDetector warningDetector : Option DS) (metric : MetS) (seed : ℕ) :
    Except String (ForestState MS DS MetS VS RngS) :=
  let base := forestNew C nModels maxFeatures lambdaValue disableWeightedVote
    driftDetector warningDetector metric .median seed
  if aggregationMethod = "mean" then .ok { base with aggMethod := .mean }
  else if aggregationMethod = "median" then .ok { base with aggMethod := .median }
  else .error "Invalid aggregation_method"

/-- Draw `n` per-member seeds sequentially from the ensemble RNG
(`self._rng.randint(0, 4294967295, size=self.n_models)`). -/
def drawSeeds {MS DS MetS VS RngS} (C : Collab MS DS MetS VS RngS) :
    ℕ → RngS → List ℕ × RngS
  | 0, r => ([], r)
  | n + 1, r =>
    let sr := C.rngRandint r
    let rest := drawSeeds C n sr.2
    (sr.1 :: rest.1, rest.2)

/-- `BaseForest._init_ensemble(features)`: resolve `max_features` (which may
raise), draw one seed per member from the ensemble RNG, and create the
`n_models` members. -/
def forestInitEnsemble {MS DS MetS VS RngS} (C : Collab MS DS MetS VS RngS)
    (f : ForestState MS DS MetS VS RngS) (features : List ℕ) :
    Except String (ForestState MS DS MetS VS RngS) :=
  match setMaxFeatures f.maxFeatures features.length with
  | .error e => .error e
  | .ok mf =>
    let sr := drawSeeds C f.nModels f.rng
    let models := sr.1.enum.map (fun is =>
      memberInit C is.1 (C.newBaseModel is.2) f.nSamplesSeen
        f.driftDetector f.warningDetector false f.metric)
    .ok { f with maxFeatures := .mfInt mf, models := models, rng := sr.2 }

/-- `BaseForest.learn_one(x, y)`: bump the sample counter, lazily build the
ensemble on the first example, then for every member obtain its prediction,
update its tracking metric, draw `k ~ Poisson(λ)` from the ensemble RNG and,
when `k > 0`, let the member learn with `sample_weight = k`. -/
def forestLearnOne {MS DS MetS VS RngS} (C : Collab MS DS MetS VS RngS)
    (f : ForestState MS DS MetS VS RngS) (x : XDict) (y : ℚ) :
    Except String (ForestState MS DS MetS VS RngS) :=
  let f1 := { f with nSamplesSeen := f.nSamplesSeen + 1 }
  match (if f1.models.isEmpty then forestInitEnsemble C f1 (x.map Prod.fst) else .ok f1) with
  | .error e => .error e
  | .ok f2 =>
    let res := f2.models.foldl
      (fun acc m =>
        let yPred := C.modelPredict m.core.model x
        let m1 : Member MS DS MetS VS :=
          .mk { m.core with metric := C.metricUpdate m.core.metric y yPred } m.background
        let kr := C.rngPoisson f2.lambdaValue acc.2
        let m2 := if kr.1 > 0 then memberLearnOne C m1 x y kr.1 f2.nSamplesSeen else m1
        (acc.1 ++ [m2], kr.2))
      (([] : List (Member MS DS MetS VS)), f2.rng)
    .ok { f2 with models := res.1, rng := res.2 }

/-- `AdaptiveRandomForestClassifier.predict_proba_one(x)`: on an empty
ensemble, build it (mutating the forest) and return the empty counter;
otherwise aggregate the members' probability vectors. -/
def forestPredictProbaOne {MS DS MetS VS RngS} (C : Collab MS DS MetS VS RngS)
    (f : ForestState MS DS MetS VS RngS) (x : XDict) :
    Except String ((Label → ℚ) × ForestState MS DS MetS VS RngS) :=
  if f.models.isEmpty then
    match forestInitEnsemble C f (x.map Prod.fst) with
    | .error e => .error e
    | .ok f' => .ok (fun _ => 0, f')
  else
    .ok (classifierPredictProba f.disableWeightedVote
      (f.models.map (fun m => (C.modelPredictProba m.core.model x, C.metricGet m.core.metric)))
      C.labelUniverse, f)

/-- `AdaptiveRandomForestRegressor.predict_one(x)`: on an empty ensemble,
build it (mutating the forest) and return `0.0`; otherwise aggregate the
members' scalar predictions. -/
def forestPredictOneReg {MS DS MetS VS RngS} (C : Collab MS DS MetS VS RngS)
    (f : ForestState MS DS MetS VS RngS) (x : XDict) :
    Except String (ℚ × ForestState MS DS MetS VS RngS) :=
  if f.models.isEmpty then
    match forestInitEnsemble C f (x.map Prod.fst) with
    | .error e => .error e
    | .ok f' => .ok (0, f')
  else
    .ok (regressorPredictAgg f.aggMethod f.disableWeightedVote
      (f.models.map (fun m => C.modelPredict m.core.model x))
      (f.models.map (fun m => C.metricGet m.core.metric)), f)

/-- Progressive validation run: predict each example, then learn it;
collects the per-example predictions and the final forest state. -/
def forestRun {MS DS MetS VS RngS} (C : Collab MS DS MetS VS RngS) :
    ForestState MS DS MetS VS RngS → List (XDict × ℚ) →
    Except String (List (Label → ℚ) × ForestState MS DS MetS VS RngS)
  | f, [] => .ok ([], f)
  | f, xy :: rest =>
    match forestPredictProbaOne C f xy.1 with
    | .error e => .error e
    | .ok pf =>
      match forestLearnOne C pf.2 xy.1 xy.2 with
      | .error e => .error e
      | .ok f2 =>
        match forestRun C f2 rest with
        | .error e => .error e
        | .ok psff => .ok (pf.1 :: psff.1, psff.2)

/-- Whether an `Except` value is a success. -/
def exceptOk {α : Type} : Except String α → Bool
  | .ok _ => true
  | .error _ => false

/-- A concrete collaborator instantiation used for witnesses: counter RNG,
counting tree models, a drift detector that always signals change after an
update (and whose clone is quiescent), counting metric. -/
def demoCollab : Collab ℕ Bool ℕ Unit ℕ :=
  { rngFromSeed := fun s => s
    rngRandint := fun s => (s, s + 1)
    rngPoisson := fun _ s => (1, s + 1)
    newBaseModel := fun seed => seed
    modelLearn := fun s _ _ _ => s + 1
    modelPredict := fun s _ => s
    modelPredictProba := fun _ _ _ => 0
    modelClone := fun _ => 0
    modelNewInstance := fun s => s
    detClone := fun _ => false
    detUpdate := fun _ _ => true
    detChange := fun b => b
    metricUpdate := fun m _ _ => m + 1
    metricGet := fun m => m
    metricIsMultiClass := false
    metricCmReset := fun _ => 0
    driftInput := fun _ y yp => (if y = yp then 0 else 1, ())
    varNew := ()
    labelUniverse := [0, 1] }

/-! ### Part 1e: definitions — concrete instances used in theorems -/

/-- The drift-detector input computed inside `learn_one`: the member's model
first learns the example, then predicts it. -/
def driftInputOf {MS DS MetS VS RngS} (C : Collab MS DS MetS VS RngS)
    (m : Member MS DS MetS VS) (x : XDict) (y : ℚ) (w : ℕ) : ℚ :=
  (C.driftInput m.core.varState y (C.modelPredict (C.modelLearn m.core.model x y w) x)).1

/-- The three members of the spec's aggregation example: probability vectors
`{A: 0.9}`, `{A: 0.1, B: 0.9}`, `{B: 1.0}` (A = label 0, B = label 1) with
metric values `1.0, 0.5, 0.5`. -/
def c5Members : List ((Label → ℚ) × ℚ) :=
  [(fun l => if l = 0 then 9/10 else 0, 1),
   (fun l => if l = 0 then 1/10 else if l = 1 then 9/10 else 0, 1/2),
   (fun l => if l = 1 then 1 else 0, 1/2)]

/-- A small fresh forest over the demo collaborators (1 member, all features,
weighted vote disabled). -/
def demoForest0 : ForestState ℕ Bool ℕ Unit ℕ :=
  forestNew demoCollab 1 .mfNone 1 true none none 0 .median 0

/-- A one-feature example. -/
def demoX1 : XDict := [(0, 0)]

/-- A two-feature example. -/
def demoX2 : XDict := [(0, 0), (1, 0)]

/-- A concrete background learner over the demo collaborators. -/
def c7Member : Member ℕ Bool ℕ Unit :=
  memberInit demoCollab 0 5 0 (some false) (some false) true 0

/-- A concrete foreground member with a drift detector and no warning
detector, over the demo collaborators. -/
def c6Member : Member ℕ Bool ℕ Unit :=
  memberInit demoCollab 0 7 0 (some false) none false 3

/-- The parent-context precondition of `_search_for_best_split_option`: at
the root there is no parent; a left child's subtree interval is capped by
the parent's cut point `p`, the incoming `parent_left`/`parent_right` are
the brute-force partition at `p` and `actual_parent_left` is the parent's
own `class_count_left`; a right child's interval starts at `p`. -/
def ParentOK (os : List Obs) (lo : WithBot ℚ) (hi : WithTop ℚ)
    (apl : ClassDist) : Option (ClassDist × ClassDist) → Bool → Prop
  | none, _ => lo = ⊥ ∧ hi = ⊤
  | some plr, lc =>
    match lc with
    | true => ∃ p : ℚ, hi = (p : WithTop ℚ) ∧
        plr.1 = leftDistOf os p ∧ plr.2 = rightDistOf os p ∧
        apl = distOfB os (fun u => inLb lo u && decide (u ≤ p))
    | false => ∃ p : ℚ, lo = (p : WithBot ℚ) ∧
        plr.1 = leftDistOf os p ∧ plr.2 = rightDistOf os p

/-- The supremum, over every node of the tree, of the criterion merit at
the brute-force partition of the observations at that node's cut point. -/
def treeMerits (crit : Criterion) (pre : ClassDist) (os : List Obs) : BTree → WithBot ℚ
  | .nil => ⊥
  | .node c _ _ l r =>
      max (max ((crit pre (leftDistOf os c) (rightDistOf os c) : ℚ) : WithBot ℚ)
        (treeMerits crit pre os l)) (treeMerits crit pre os r)

/-- Observations 1 then 0 (label 0, weight 1 each): the second insertion
adds its weight both at the root and at the newly created left child. -/
def c2Obs : List Obs := [⟨1, 0, 1⟩, ⟨0, 0, 1⟩]

/-! ### Part 2: theorems -/

/-! #### C8: `max_features` resolution -/

/-- The claim's clamp (`≤ 0` becomes 1, `> n` becomes `n`) predicts 1 for
`resolve(-0.5, 10)`, but the code first adds `n_features` to any negative
resolved value — floats included — and returns 5.  This refutes C8 as
stated (its formula applies `value + n` only to negative integers). -/
theorem c8_counterexample :
    setMaxFeatures (.mfFloat (-1/2)) 10 = .ok 5 ∧
    claimResolve (.mfFloat (-1/2)) 10 = .ok 1 ∧
    setMaxFeatures (.mfFloat (-1/2)) 10 ≠ claimResolve (.mfFloat (-1/2)) 10 := by
  have hp : pyInt ((-1 : ℚ)/2 * ((10 : ℕ) : ℚ)) = -5 := by
    have hq : ((-1 : ℚ)/2 * ((10 : ℕ) : ℚ)) = -5 := by push_cast; norm_num
    rw [hq]
    norm_num [pyInt]
    rw [show ((-5 : ℚ)) = ((-5 : ℤ) : ℚ) by norm_num, Int.ceil_intCast]
  have h1 : setMaxFeatures (.mfFloat (-1/2)) 10 = .ok 5 := by
    simp only [setMaxFeatures, rawMaxFeatures, hp]
    norm_num
  have h2 : claimResolve (.mfFloat (-1/2)) 10 = .ok 1 := by
    simp only [claimResolve, hp]
    norm_num
  refine ⟨h1, h2, ?_⟩
  rw [h1, h2]
  simp

/-- C8 (amended): for every `n ≥ 1`, resolution yields `round(sqrt n)` for
`"sqrt"`, `round(log2 n)` for `"log2"`, the value itself for an integer,
`int(value * n)` for a float and `n` for `None`; any negative resolved value
(from a negative integer or a negative float product alike) then gets
`+ n`, and the result is clamped into `[1, n]`; in particular
`resolve("sqrt", 16) = 4`, `resolve(-1, 10) = 9`, `resolve(0.5, 10) = 5`,
`resolve(None, 7) = 7`. -/
theorem c8_max_features_resolution (n : ℕ) (hn : 1 ≤ n) :
    (∀ mf : MaxFeatures, setMaxFeatures mf n = amendedResolve mf n) ∧
    setMaxFeatures (.mfStr "sqrt") 16 = .ok 4 ∧
    setMaxFeatures (.mfInt (-1)) 10 = .ok 9 ∧
    setMaxFeatures (.mfFloat (1/2)) 10 = .ok 5 ∧
    setMaxFeatures .mfNone 7 = .ok 7 := by
  have h1 : (1 : ℤ) ≤ (n : ℤ) := by exact_mod_cast hn
  refine ⟨?_, ?_, ?_, ?_, ?_⟩
  · intro mf
    unfold setMaxFeatures amendedResolve
    cases rawMaxFeatures mf n with
    | error e => rfl
    | ok v =>
      simp only [Except.ok.injEq]
      rw [min_def]
      split_ifs <;> omega
  · have hs : natSqrtRound 16 = 4 := by norm_num [natSqrtRound]
    simp only [setMaxFeatures, rawMaxFeatures, if_pos rfl, hs]
    norm_num
  · simp only [setMaxFeatures, rawMaxFeatures]
    norm_num
  · have hp : pyInt ((1 : ℚ)/2 * ((10 : ℕ) : ℚ)) = 5 := by
      have hq : ((1 : ℚ)/2 * ((10 : ℕ) : ℚ)) = 5 := by push_cast; norm_num
      rw [hq]
      norm_num [pyInt]
    simp only [setMaxFeatures, rawMaxFeatures, hp]
    norm_num
  · simp only [setMaxFeatures, rawMaxFeatures]
    norm_num

/-- Witness for `c8_max_features_resolution` at `n = 16`. -/
theorem c8_max_features_resolution_witness :
    1 ≤ 16 ∧ setMaxFeatures (.mfStr "sqrt") 16 = .ok 4 :=
  ⟨by decide, (c8_max_features_resolution 16 (by decide)).2.1⟩

/-! #### C5: the classifier weighted-vote example -/

/-- The claim's arithmetic drops member 2's scaled A-contribution
(`0.1 · 0.5 = 0.05`): the code's pre-normalization score for A is `0.95`,
not `0.9`, and B does not outscore A after normalization. -/
theorem c5_counterexample :
    classifierVoteScores false c5Members 0 = 19/20 ∧
    (19/20 : ℚ) ≠ 9/10 ∧
    ¬ classifierPredictProba false c5Members [0, 1] 1 >
        classifierPredictProba false c5Members [0, 1] 0 := by
  refine ⟨?_, by norm_num, ?_⟩
  · simp [classifierVoteScores, c5Members]
    norm_num
  · simp [classifierPredictProba, classifierVoteScores, c5Members]
    norm_num

/-- C5 (amended): with weighted vote enabled, members `{A:0.9}`,
`{A:0.1, B:0.9}`, `{B:1.0}` and metrics `1.0, 0.5, 0.5` give
pre-normalization scores `0.95` for both A and B (A receives
`0.9·1.0 + 0.1·0.5`), so the normalized probabilities are `0.5` each and
B's probability does not exceed A's. -/
theorem c5_aggregation_example :
    classifierVoteScores false c5Members 0 = 19/20 ∧
    classifierVoteScores false c5Members 1 = 19/20 ∧
    classifierPredictProba false c5Members [0, 1] 0 = 1/2 ∧
    classifierPredictProba false c5Members [0, 1] 1 = 1/2 := by
  refine ⟨?_, ?_, ?_, ?_⟩ <;>
    · simp [classifierPredictProba, classifierVoteScores, c5Members]
      norm_num

/-! #### C3: the regressor's median aggregation -/

/-- With `aggregation_method = "median"` and the weighted vote enabled, the
code takes the median of the *weighted* predictions (docstring: median
"will disable the weighted vote"): for predictions `[1, 2, 3]` and metric
values `[1, 1, 4]` it returns `1/2`, not the plain median `2`; with the
weighted vote disabled it does return the plain median. -/
theorem c3_median_uses_weights :
    regressorPredictAgg .median false [1, 2, 3] [1, 1, 4] = 1/2 ∧
    npMedian [1, 2, 3] = 2 ∧
    regressorPredictAgg .median false [1, 2, 3] [1, 1, 4] ≠ npMedian [1, 2, 3] ∧
    regressorPredictAgg .median true [1, 2, 3] [1, 1, 4] = 2 := by
  have hw : regressorPredictAgg .median false [1, 2, 3] [1, 1, 4] = 1/2 := by
    norm_num [regressorPredictAgg, npMedian, sortAsc, insertAsc]
  have hm : npMedian [1, 2, 3] = 2 := by
    norm_num [npMedian, sortAsc, insertAsc]
  have hd : regressorPredictAgg .median true [1, 2, 3] [1, 1, 4] = 2 := by
    norm_num [regressorPredictAgg, npMedian, sortAsc, insertAsc]
  refine ⟨hw, hm, ?_, hd⟩
  rw [hw, hm]
  norm_num

/-! #### C4: construction-time configuration errors -/

/-- Constructing the regressor with an invalid `max_features` type does not
raise during `__init__`: the constructor succeeds, refuting C4's claim that
the `max_features` error is reported at construction time. -/
theorem c4_counterexample :
    exceptOk (arfRegressorNew demoCollab 1 (.mfStr "all") "median" 1 true
      none none 0 0) = true := by
  decide

/-- C4 (amended): an invalid `aggregation_method` string raises at
construction time; an invalid `max_features` type does not — construction
succeeds and the `AttributeError` is raised during ensemble
initialization when the first example is processed. -/
theorem c4_config_error_timing {MS DS MetS VS RngS} (C : Collab MS DS MetS VS RngS)
    (nModels : ℕ) (mf : MaxFeatures) (lam : ℕ) (dis : Bool)
    (dd wd : Option DS) (met : MetS) (seed : ℕ) :
    (∀ s : String, s ≠ "mean" → s ≠ "median" →
      exceptOk (arfRegressorNew C nModels mf s lam dis dd wd met seed) = false) ∧
    exceptOk (arfRegressorNew demoCollab 1 (.mfStr "all") "median" 1 true
      none none 0 0) = true ∧
    exceptOk ((arfRegressorNew demoCollab 1 (.mfStr "all") "median" 1 true
      none none 0 0).bind (fun f => forestLearnOne demoCollab f demoX1 0)) = false := by
  refine ⟨?_, by decide, by decide⟩
  intro s hs1 hs2
  simp only [arfRegressorNew, if_neg hs1, if_neg hs2, exceptOk]

/-- Witness for `c4_config_error_timing`: the invalid string `"sum"` is
rejected at construction. -/
theorem c4_config_error_timing_witness :
    ("sum" : String) ≠ "mean" ∧ ("sum" : String) ≠ "median" ∧
    exceptOk (arfRegressorNew demoCollab 1 .mfNone "sum" 1 true
      none none 0 0) = false :=
  ⟨by decide, by decide,
    (c4_config_error_timing demoCollab 1 .mfNone 1 true none none 0 0).1
      "sum" (by decide) (by decide)⟩

/-! #### C9: seed determinism -/

/-- C9: the embedded learn/predict behaviour is a deterministic function of
the seed and the example order: two forests built from the identical
configuration and seed and fed the identical example sequence produce
identical prediction sequences and identical per-member
`n_drifts_detected` counts.  All collaborator semantics (including the
numpy `RandomState`, a deterministic state machine) are embedded as pure
functions, so the whole run is a function of `(seed, example order)`. -/
theorem c9_seed_determinism {MS DS MetS VS RngS} (C : Collab MS DS MetS VS RngS)
    (nModels : ℕ) (mf : MaxFeatures) (lam : ℕ) (dis : Bool)
    (dd wd : Option DS) (met : MetS) (agg : AggMethod) (seed : ℕ)
    (xs : List (XDict × ℚ)) (f1 f2 : ForestState MS DS MetS VS RngS)
    (h1 : f1 = forestNew C nModels mf lam dis dd wd met agg seed)
    (h2 : f2 = forestNew C nModels mf lam dis dd wd met agg seed) :
    forestRun C f1 xs = forestRun C f2 xs ∧
    (forestRun C f1 xs).map (fun r => r.1) =
      (forestRun C f2 xs).map (fun r => r.1) ∧
    (forestRun C f1 xs).map (fun r => r.2.models.map (fun m => m.core.nDrifts)) =
      (forestRun C f2 xs).map (fun r => r.2.models.map (fun m => m.core.nDrifts)) := by
  subst h1
  subst h2
  exact ⟨rfl, rfl, rfl⟩

/-- Witness for `c9_seed_determinism` on a concrete two-member forest. -/
theorem c9_seed_determinism_witness :
    forestNew demoCollab 2 .mfNone 1 false (some false) (some false) 0 .median 42 =
      forestNew demoCollab 2 .mfNone 1 false (some false) (some false) 0 .median 42 ∧
    forestRun demoCollab
        (forestNew demoCollab 2 .mfNone 1 false (some false) (some false) 0 .median 42)
        [(demoX1, 1)] =
      forestRun demoCollab
        (forestNew demoCollab 2 .mfNone 1 false (some false) (some false) 0 .median 42)
        [(demoX1, 1)] :=
  ⟨rfl,
    (c9_seed_determinism demoCollab 2 .mfNone 1 false (some false) (some false)
      0 .median 42 [(demoX1, 1)] _ _ rfl rfl).1⟩

/-! #### C10: predicting on an empty forest is not read-only -/

/-- Drawing `n` seeds yields `n` seeds. -/
theorem drawSeeds_length {MS DS MetS VS RngS} (C : Collab MS DS MetS VS RngS) :
    ∀ (n : ℕ) (r : RngS), (drawSeeds C n r).1.length = n
  | 0, _ => rfl
  | n + 1, r => by simp [drawSeeds, drawSeeds_length C n]

/-- C10: calling `predict_proba_one` (classifier) or `predict_one`
(regressor) on a forest that has seen no examples returns the neutral value
but also resolves `max_features`, creates all `n_models` members and
advances the ensemble RNG by the per-member seed draws; consequently a run
that skips the predict call can behave differently (concretely: predicting
a 1-feature example before learning a 2-feature example leaves
`max_features = 1`, while learning directly resolves it to 2). -/
theorem c10_predict_not_readonly {MS DS MetS VS RngS} (C : Collab MS DS MetS VS RngS)
    (f : ForestState MS DS MetS VS RngS) (x : XDict) (mf : ℤ)
    (hempty : f.models = [])
    (hmf : setMaxFeatures f.maxFeatures (x.map Prod.fst).length = .ok mf) :
    (∃ f', forestInitEnsemble C f (x.map Prod.fst) = .ok f' ∧
      forestPredictProbaOne C f x = .ok (fun _ => 0, f') ∧
      forestPredictOneReg C f x = .ok (0, f') ∧
      f'.models.length = f.nModels ∧
      f'.rng = (drawSeeds C f.nModels f.rng).2 ∧
      f'.maxFeatures = .mfInt mf) ∧
    ((forestPredictProbaOne demoCollab demoForest0 demoX1).bind
        (fun pf => forestLearnOne demoCollab pf.2 demoX2 0)).map
      (fun fr => fr.maxFeatures) = .ok (.mfInt 1) ∧
    (forestLearnOne demoCollab demoForest0 demoX2 0).map
      (fun fr => fr.maxFeatures) = .ok (.mfInt 2) := by
  have hinit : forestInitEnsemble C f (x.map Prod.fst) =
      .ok { f with
        maxFeatures := .mfInt mf
        models := (drawSeeds C f.nModels f.rng).1.enum.map (fun is =>
          memberInit C is.1 (C.newBaseModel is.2) f.nSamplesSeen
            f.driftDetector f.warningDetector false f.metric)
        rng := (drawSeeds C f.nModels f.rng).2 } := by
    have hmf' : setMaxFeatures f.maxFeatures x.length = .ok mf := by
      simpa using hmf
    simp [forestInitEnsemble, hmf']
  refine ⟨⟨_, hinit, ?_, ?_, ?_, rfl, rfl⟩, by rfl, by rfl⟩
  · simp [forestPredictProbaOne, hempty, hinit]
  · simp [forestPredictOneReg, hempty, hinit]
  · simp [drawSeeds_length]

/-- Witness for `c10_predict_not_readonly` on the demo forest. -/
theorem c10_predict_not_readonly_witness :
    demoForest0.models = [] ∧
    setMaxFeatures demoForest0.maxFeatures (demoX1.map Prod.fst).length = .ok 1 ∧
    (∃ f', forestInitEnsemble demoCollab demoForest0 (demoX1.map Prod.fst) = .ok f' ∧
      forestPredictProbaOne demoCollab demoForest0 demoX1 = .ok (fun _ => 0, f') ∧
      forestPredictOneReg demoCollab demoForest0 demoX1 = .ok (0, f') ∧
      f'.models.length = demoForest0.nModels ∧
      f'.rng = (drawSeeds demoCollab demoForest0.nModels demoForest0.rng).2 ∧
      f'.maxFeatures = .mfInt 1) :=
  ⟨rfl, rfl,
    (c10_predict_not_readonly demoCollab demoForest0 demoX1 1 rfl rfl).1⟩

/-! #### C7: background learners are inert -/

/-- A background learner's `learn_one` only trains the model: the whole
drift/warning block is skipped. -/
theorem memberLearnOne_background {MS DS MetS VS RngS} (C : Collab MS DS MetS VS RngS)
    (m : Member MS DS MetS VS) (x : XDict) (y : ℚ) (w n : ℕ)
    (hbg : m.core.isBackground = true) (hnone : m.background = none) :
    memberLearnOne C m x y w n =
      .mk { m.core with model := C.modelLearn m.core.model x y w } none := by
  cases m with
  | mk core bg =>
    simp only [Member.core, Member.background] at hbg hnone
    subst hnone
    simp [memberLearnOne, Member.core, Member.background, hbg]

/-- Folding `learn_one` over a background learner never spawns a background
learner, never touches the detectors, and never changes the counters. -/
theorem c7_aux {MS DS MetS VS RngS} (C : Collab MS DS MetS VS RngS)
    (steps : List ((XDict × ℚ) × ℕ × ℕ)) :
    ∀ m : Member MS DS MetS VS, m.core.isBackground = true → m.background = none →
      (steps.foldl (fun m s => memberLearnOne C m s.1.1 s.1.2 s.2.1 s.2.2) m).background
          = none ∧
      (steps.foldl (fun m s => memberLearnOne C m s.1.1 s.1.2 s.2.1 s.2.2) m).core.isBackground
          = true ∧
      (steps.foldl (fun m s => memberLearnOne C m s.1.1 s.1.2 s.2.1 s.2.2) m).core.nDrifts
          = m.core.nDrifts ∧
      (steps.foldl (fun m s => memberLearnOne C m s.1.1 s.1.2 s.2.1 s.2.2) m).core.nWarnings
          = m.core.nWarnings ∧
      (steps.foldl (fun m s => memberLearnOne C m s.1.1 s.1.2 s.2.1 s.2.2) m).core.driftDetector
          = m.core.driftDetector ∧
      (steps.foldl (fun m s => memberLearnOne C m s.1.1 s.1.2 s.2.1 s.2.2) m).core.warningDetector
          = m.core.warningDetector := by
  induction steps with
  | nil =>
    intro m hb hn
    exact ⟨hn, hb, rfl, rfl, rfl, rfl⟩
  | cons s rest ih =>
    intro m hb hn
    cases m with
    | mk core bg =>
      simp only [Member.core] at hb
      simp only [Member.background] at hn
      subst hn
      simp only [List.foldl_cons]
      rw [memberLearnOne_background C (.mk core none) s.1.1 s.1.2 s.2.1 s.2.2
        (by simpa [Member.core] using hb) rfl]
      have h := ih
        (.mk { core with model := C.modelLearn core.model s.1.1 s.1.2 s.2.1 } none)
        (by simpa [Member.core] using hb) rfl
      simpa [Member.core] using h

/-- C7: a member with `is_background_learner = true` never spawns a
background learner of its own, never updates or checks its detectors, and
its `n_drifts_detected` / `n_warnings_detected` stay 0 for every sequence
of `learn_one` calls. -/
theorem c7_background_learner_inert {MS DS MetS VS RngS} (C : Collab MS DS MetS VS RngS)
    (m0 : Member MS DS MetS VS)
    (h1 : m0.core.isBackground = true) (h2 : m0.background = none)
    (h3 : m0.core.nDrifts = 0) (h4 : m0.core.nWarnings = 0)
    (steps : List ((XDict × ℚ) × ℕ × ℕ)) :
    (steps.foldl (fun m s => memberLearnOne C m s.1.1 s.1.2 s.2.1 s.2.2) m0).background
        = none ∧
    (steps.foldl (fun m s => memberLearnOne C m s.1.1 s.1.2 s.2.1 s.2.2) m0).core.nDrifts
        = 0 ∧
    (steps.foldl (fun m s => memberLearnOne C m s.1.1 s.1.2 s.2.1 s.2.2) m0).core.nWarnings
        = 0 ∧
    (steps.foldl (fun m s => memberLearnOne C m s.1.1 s.1.2 s.2.1 s.2.2) m0).core.driftDetector
        = m0.core.driftDetector ∧
    (steps.foldl (fun m s => memberLearnOne C m s.1.1 s.1.2 s.2.1 s.2.2) m0).core.warningDetector
        = m0.core.warningDetector := by
  obtain ⟨a, _, c, d, e, g⟩ := c7_aux C steps m0 h1 h2
  exact ⟨a, by rw [c, h3], by rw [d, h4], e, g⟩

/-- Witness for `c7_background_learner_inert` on a concrete background
learner. -/
theorem c7_background_learner_inert_witness :
    c7Member.core.isBackground = true ∧ c7Member.background = none ∧
    c7Member.core.nDrifts = 0 ∧ c7Member.core.nWarnings = 0 ∧
    (([((demoX1, 1), 1, 5)] : List ((XDict × ℚ) × ℕ × ℕ)).foldl
        (fun m s => memberLearnOne demoCollab m s.1.1 s.1.2 s.2.1 s.2.2) c7Member).background
      = none :=
  ⟨rfl, rfl, rfl, rfl,
    (c7_background_learner_inert demoCollab c7Member rfl rfl rfl rfl
      [((demoX1, 1), 1, 5)]).1⟩

/-! #### C6: drift-triggered reset / background promotion -/

/-- C6: when a foreground member's drift detector signals change during
`learn_one`, `last_drift_on` is stamped with the current sample count and
`n_drifts_detected` is incremented, unconditionally.  If the warning
detector does not also fire at this very step (because background learning
is off, no warning detector is set, or the updated warning detector
reports no change), then: a background learner already present is promoted
wholesale — its model (which also just learned this example), warning
detector, drift detector, metric and `created_on` replace the member's
fields and the background learner is discarded (the trailing multiclass
confusion-matrix reset is the identity on every background metric the code
creates, which is the `resetIfMC`-fixpoint antecedent); with no background
learner present the member gets a fresh clone of its own model, a clone of
its (just updated) drift detector, the pristine original metric, and
`created_on = n`.  If instead the warning detector fires at the same step,
the background learner the warning just spawned is promoted immediately:
the model becomes a clone of a new instance of the freshly trained model,
the warning and (pre-update) drift detectors are cloned, the metric is the
current metric put through the multiclass confusion-matrix reset twice,
`created_on = n`, and no background learner remains. -/
theorem c6_drift_reset {MS DS MetS VS RngS} (C : Collab MS DS MetS VS RngS)
    (m : Member MS DS MetS VS) (x : XDict) (y : ℚ) (w n : ℕ) (dd : DS)
    (hfg : m.core.isBackground = false)
    (hud : m.core.useDriftDetector = true)
    (hdd : m.core.driftDetector = some dd)
    (hfire : C.detChange (C.detUpdate dd (driftInputOf C m x y w)) = true) :
    (memberLearnOne C m x y w n).core.lastDriftOn = n ∧
    (memberLearnOne C m x y w n).core.nDrifts = m.core.nDrifts + 1 ∧
    ((m.core.useBackgroundLearner = false ∨ m.core.warningDetector = none ∨
        ∃ wd, m.core.warningDetector = some wd ∧
          C.detChange (C.detUpdate wd (driftInputOf C m x y w)) = false) →
      (∀ b, m.background = some b → m.core.useBackgroundLearner = true →
        (memberLearnOne C m x y w n).core.model = C.modelLearn b.core.model x y w ∧
        (memberLearnOne C m x y w n).core.warningDetector = b.core.warningDetector ∧
        (memberLearnOne C m x y w n).core.driftDetector = b.core.driftDetector ∧
        (memberLearnOne C m x y w n).core.metric = resetIfMC C b.core.metric ∧
        (resetIfMC C b.core.metric = b.core.metric →
          (memberLearnOne C m x y w n).core.metric = b.core.metric) ∧
        (memberLearnOne C m x y w n).core.createdOn = b.core.createdOn ∧
        (memberLearnOne C m x y w n).background = none) ∧
      (m.background = none →
        (memberLearnOne C m x y w n).core.model =
          C.modelClone (C.modelLearn m.core.model x y w) ∧
        (memberLearnOne C m x y w n).core.driftDetector =
          some (C.detClone (C.detUpdate dd (driftInputOf C m x y w))) ∧
        (memberLearnOne C m x y w n).core.metric = resetIfMC C m.core.originalMetric ∧
        (memberLearnOne C m x y w n).core.createdOn = n ∧
        (memberLearnOne C m x y w n).background = none)) ∧
    (∀ wd, m.core.useBackgroundLearner = true → m.core.warningDetector = some wd →
      C.detChange (C.detUpdate wd (driftInputOf C m x y w)) = true →
      (memberLearnOne C m x y w n).core.model =
        C.modelClone (C.modelNewInstance (C.modelLearn m.core.model x y w)) ∧
      (memberLearnOne C m x y w n).core.warningDetector =
        some (C.detClone (C.detUpdate wd (driftInputOf C m x y w))) ∧
      (memberLearnOne C m x y w n).core.driftDetector = some (C.detClone dd) ∧
      (memberLearnOne C m x y w n).core.metric =
        resetIfMC C (resetIfMC C m.core.metric) ∧
      (memberLearnOne C m x y w n).core.createdOn = n ∧
      (memberLearnOne C m x y w n).background = none) := by
  cases m with
  | mk core bg =>
    simp only [Member.core] at hfg hud hdd
    simp only [driftInputOf, Member.core] at hfire ⊢
    by_cases hub : core.useBackgroundLearner = true
    · cases hwdet : core.warningDetector with
      | none =>
        cases bg with
        | none =>
          refine ⟨?_, ?_, ?_, ?_⟩ <;>
            simp [memberLearnOne, memberReset, Member.core, Member.background,
              hfg, hud, hdd, hub, hwdet, hfire]
        | some b =>
          refine ⟨?_, ?_, ?_, ?_⟩ <;>
            simp [memberLearnOne, memberReset, Member.core, Member.background,
              hfg, hud, hdd, hub, hwdet, hfire]
      | some wd =>
        by_cases hwf : C.detChange (C.detUpdate wd
            (C.driftInput core.varState y
              (C.modelPredict (C.modelLearn core.model x y w) x)).1) = true
        · cases bg with
          | none =>
            refine ⟨?_, ?_, ?_, ?_⟩ <;>
              simp [memberLearnOne, memberReset, memberInit, Member.core,
                Member.background, hfg, hud, hdd, hub, hwdet, hwf, hfire]
          | some b =>
            refine ⟨?_, ?_, ?_, ?_⟩ <;>
              simp [memberLearnOne, memberReset, memberInit, Member.core,
                Member.background, hfg, hud, hdd, hub, hwdet, hwf, hfire]
        · rw [Bool.not_eq_true] at hwf
          cases bg with
          | none =>
            refine ⟨?_, ?_, ?_, ?_⟩ <;>
              simp [memberLearnOne, memberReset, Member.core, Member.background,
                hfg, hud, hdd, hub, hwdet, hwf, hfire]
          | some b =>
            refine ⟨?_, ?_, ?_, ?_⟩ <;>
              simp [memberLearnOne, memberReset, Member.core, Member.background,
                hfg, hud, hdd, hub, hwdet, hwf, hfire]
    · cases bg with
      | none =>
        refine ⟨?_, ?_, ?_, ?_⟩ <;>
          simp [memberLearnOne, memberReset, Member.core, Member.background,
            hfg, hud, hdd, hub, hfire]
      | some b =>
        refine ⟨?_, ?_, ?_, ?_⟩ <;>
          simp [memberLearnOne, memberReset, Member.core, Member.background,
            hfg, hud, hdd, hub, hfire]

/-- Witness for `c6_drift_reset` on a concrete foreground member whose
drift detector fires. -/
theorem c6_drift_reset_witness :
    c6Member.core.isBackground = false ∧
    c6Member.core.useDriftDetector = true ∧
    c6Member.core.driftDetector = some false ∧
    demoCollab.detChange
      (demoCollab.detUpdate false (driftInputOf demoCollab c6Member demoX1 1 1)) = true ∧
    (memberLearnOne demoCollab c6Member demoX1 1 1 9).core.lastDriftOn = 9 :=
  ⟨rfl, rfl, rfl, rfl,
    (c6_drift_reset demoCollab c6Member demoX1 1 1 9 false rfl rfl rfl rfl).1⟩

/-! #### Distribution lemmas for the split-search proof -/

/-- Appending one observation adds its (filtered) contribution pointwise. -/
theorem distOfB_append_single (os : List Obs) (o : Obs) (p : ℚ → Bool) :
    distOfB (os ++ [o]) p = fun lab =>
      distOfB os p lab + (if p o.val && (o.label == lab) then o.weight else 0) := by
  funext lab
  simp [distOfB]

/-- Observations never satisfying the filter contribute nothing. -/
theorem distOfB_eq_zero (os : List Obs) (p : ℚ → Bool)
    (h : ∀ o ∈ os, p o.val = false) :
    distOfB os p = fun _ => 0 := by
  funext lab
  induction os with
  | nil => simp [distOfB]
  | cons o os ih =>
    have ho := h o (by simp)
    have ih' := ih (fun o' ho' => h o' (by simp [ho']))
    simp only [distOfB, List.map_cons, List.sum_cons] at ih' ⊢
    rw [ih', ho]
    simp

/-- The filter only matters through its values. -/
theorem distOfB_congr (os : List Obs) (p q : ℚ → Bool)
    (h : ∀ v, p v = q v) : distOfB os p = distOfB os q := by
  funext lab
  simp only [distOfB]
  congr 1
  apply List.map_congr_left
  intro o _
  rw [h o.val]

/-- A disjoint cover of the filter splits the distribution into a sum. -/
theorem distOfB_split2 (os : List Obs) (p q r : ℚ → Bool)
    (hcov : ∀ v, p v = (q v || r v))
    (hdis : ∀ v, ¬(q v = true ∧ r v = true)) :
    distOfB os p = distOfB os q + distOfB os r := by
  funext lab
  induction os with
  | nil => simp [distOfB]
  | cons o os ih =>
    simp only [distOfB, List.map_cons, List.sum_cons, Pi.add_apply] at ih ⊢
    rw [ih, hcov o.val]
    cases hq : q o.val <;> cases hr : r o.val
    · simp
    · simp [hq, hr]
      ring
    · simp [hq, hr]
      ring
    · exact absurd ⟨hq, hr⟩ (hdis o.val)

/-- A disjoint three-way cover splits the distribution into three parts. -/
theorem distOfB_split3 (os : List Obs) (p q r s : ℚ → Bool)
    (hcov : ∀ v, p v = (q v || (r v || s v)))
    (hqr : ∀ v, ¬(q v = true ∧ r v = true))
    (hqs : ∀ v, ¬(q v = true ∧ s v = true))
    (hrs : ∀ v, ¬(r v = true ∧ s v = true)) :
    distOfB os p = distOfB os q + (distOfB os r + distOfB os s) := by
  rw [distOfB_split2 os p q (fun v => r v || s v) hcov
    (fun v h => by
      rcases h with ⟨h1, h2⟩
      rcases Bool.or_eq_true_iff.mp h2 with h3 | h3
      · exact hqr v ⟨h1, h3⟩
      · exact hqs v ⟨h1, h3⟩),
    distOfB_split2 os (fun v => r v || s v) r s (fun v => rfl) hrs]

/-- `(-∞, p] = (-∞, c] ⊎ (c, p) ⊎ {p}` for `c < p`, as distributions. -/
theorem split_left_le (os : List Obs) (c p : ℚ) (h : c < p) :
    leftDistOf os p = leftDistOf os c +
      (distOfB os (fun u => decide (c < u) && decide (u < p)) +
        distOfB os (fun u => decide (u = p))) := by
  apply distOfB_split3
  · intro u
    simp only [← Bool.decide_and, ← Bool.decide_or, decide_eq_decide]
    constructor
    · intro h1
      by_cases hc : u ≤ c
      · exact Or.inl hc
      · by_cases hp : u = p
        · exact Or.inr (Or.inr hp)
        · exact Or.inr (Or.inl ⟨lt_of_not_le hc, lt_of_le_of_ne h1 hp⟩)
    · rintro (h1 | ⟨h1, h2⟩ | h1)
      · linarith
      · linarith
      · exact le_of_eq h1
  · intro u ⟨h1, h2⟩
    simp only [decide_eq_true_eq, Bool.and_eq_true] at h1 h2
    linarith [h2.1]
  · intro u ⟨h1, h2⟩
    simp only [decide_eq_true_eq] at h1 h2
    subst h2
    linarith
  · intro u ⟨h1, h2⟩
    simp only [decide_eq_true_eq, Bool.and_eq_true] at h1 h2
    subst h2
    linarith [h1.2]

/-- `(c, ∞) = (p, ∞) ⊎ (c, p) ⊎ {p}` for `c < p`, as distributions. -/
theorem split_left_gt (os : List Obs) (c p : ℚ) (h : c < p) :
    rightDistOf os c = rightDistOf os p +
      (distOfB os (fun u => decide (c < u) && decide (u < p)) +
        distOfB os (fun u => decide (u = p))) := by
  apply distOfB_split3
  · intro u
    simp only [← Bool.decide_and, ← Bool.decide_or, decide_eq_decide]
    constructor
    · intro h1
      by_cases hp : p < u
      · exact Or.inl hp
      · by_cases he : u = p
        · exact Or.inr (Or.inr he)
        · exact Or.inr (Or.inl ⟨h1, lt_of_le_of_ne (le_of_not_lt hp) he⟩)
    · rintro (h1 | ⟨h1, h2⟩ | h1)
      · linarith
      · exact h1
      · rw [h1]; exact h
  · intro u ⟨h1, h2⟩
    simp only [decide_eq_true_eq, Bool.and_eq_true] at h1 h2
    linarith [h2.2]
  · intro u ⟨h1, h2⟩
    simp only [decide_eq_true_eq] at h1 h2
    subst h2
    linarith
  · intro u ⟨h1, h2⟩
    simp only [decide_eq_true_eq, Bool.and_eq_true] at h1 h2
    subst h2
    linarith [h1.2]

/-- The parent's `class_count_left` interval `(lo, p]` splits at a smaller
cut `c` into `(lo, c] ⊎ (c, p) ⊎ {p}`. -/
theorem split_apl (os : List Obs) (lo : WithBot ℚ) (c p : ℚ)
    (hlc : lo < (c : WithBot ℚ)) (hcp : c < p) :
    distOfB os (fun u => inLb lo u && decide (u ≤ p)) =
      distOfB os (fun u => inLb lo u && decide (u ≤ c)) +
      (distOfB os (fun u => decide (c < u) && decide (u < p)) +
        distOfB os (fun u => decide (u = p))) := by
  apply distOfB_split3
  · intro u
    simp only [inLb, ← Bool.decide_and, ← Bool.decide_or, decide_eq_decide]
    constructor
    · intro ⟨h1, h2⟩
      by_cases hc : u ≤ c
      · exact Or.inl ⟨h1, hc⟩
      · by_cases hp : u = p
        · exact Or.inr (Or.inr hp)
        · exact Or.inr (Or.inl ⟨lt_of_not_le hc, lt_of_le_of_ne h2 hp⟩)
    · rintro (⟨h1, h2⟩ | ⟨h1, h2⟩ | h1)
      · exact ⟨h1, by linarith⟩
      · exact ⟨lt_trans hlc (WithBot.coe_lt_coe.mpr h1), le_of_lt h2⟩
      · subst h1
        exact ⟨lt_trans hlc (WithBot.coe_lt_coe.mpr hcp), le_refl _⟩
  · intro u ⟨h1, h2⟩
    simp only [inLb, decide_eq_true_eq, Bool.and_eq_true] at h1 h2
    linarith [h1.2, h2.1]
  · intro u ⟨h1, h2⟩
    simp only [inLb, decide_eq_true_eq, Bool.and_eq_true] at h1 h2
    have := h1.2
    subst h2
    linarith
  · intro u ⟨h1, h2⟩
    simp only [decide_eq_true_eq, Bool.and_eq_true] at h1 h2
    subst h2
    linarith [h1.2]

/-- `(-∞, c] = (-∞, p] ⊎ (p, c]` for `p < c`, as distributions. -/
theorem split_right_le (os : List Obs) (p c : ℚ) (h : p < c) :
    leftDistOf os c = leftDistOf os p +
      distOfB os (fun u => decide (p < u) && decide (u ≤ c)) := by
  apply distOfB_split2
  · intro u
    simp only [← Bool.decide_and, ← Bool.decide_or, decide_eq_decide]
    constructor
    · intro h1
      by_cases hp : u ≤ p
      · exact Or.inl hp
      · exact Or.inr ⟨lt_of_not_le hp, h1⟩
    · rintro (h1 | ⟨h1, h2⟩)
      · linarith
      · exact h2
  · intro u ⟨h1, h2⟩
    simp only [decide_eq_true_eq, Bool.and_eq_true] at h1 h2
    linarith [h2.1]

/-- `(p, ∞) = (c, ∞) ⊎ (p, c]` for `p < c`, as distributions. -/
theorem split_right_gt (os : List Obs) (p c : ℚ) (h : p < c) :
    rightDistOf os p = rightDistOf os c +
      distOfB os (fun u => decide (p < u) && decide (u ≤ c)) := by
  apply distOfB_split2
  · intro u
    simp only [← Bool.decide_and, ← Bool.decide_or, decide_eq_decide]
    constructor
    · intro h1
      by_cases hc : c < u
      · exact Or.inl hc
      · exact Or.inr ⟨h1, le_of_not_lt hc⟩
    · rintro (h1 | ⟨h1, h2⟩)
      · linarith
      · exact h1
  · intro u ⟨h1, h2⟩
    simp only [decide_eq_true_eq, Bool.and_eq_true] at h1 h2
    linarith [h2.2]

/-! #### Invariant preservation -/

/-- Unfolds of the interval tests. -/
theorem inLb_iff (lo : WithBot ℚ) (v : ℚ) : inLb lo v = true ↔ lo < (v : WithBot ℚ) := by
  simp [inLb]

/-- Unfolds of the interval tests. -/
theorem inRb_iff (hi : WithTop ℚ) (v : ℚ) : inRb hi v = true ↔ (v : WithTop ℚ) < hi := by
  simp [inRb]

/-- Appending an observation whose value lies outside a subtree's interval
leaves the subtree's invariant intact. -/
theorem inv_snoc_out (os : List Obs) (o : Obs) :
    ∀ {lo hi t}, Inv os lo hi t →
      ¬(inLb lo o.val && inRb hi o.val) = true →
      Inv (os ++ [o]) lo hi t := by
  intro lo hi t h
  induction h with
  | nil h =>
    intro ho
    refine Inv.nil ?_
    intro o' ho'
    rcases List.mem_append.mp ho' with h1 | h1
    · exact h o' h1
    · simp only [List.mem_singleton] at h1
      subst h1
      exact ho
  | @node lo hi c cl cr l r hcl hcr hl hr hsubl hsubr ihl ihr =>
    intro ho
    simp only [Bool.and_eq_true, not_and_or, inLb_iff, inRb_iff] at ho
    have hcl' := (inLb_iff lo c).mp hcl
    have hcr' := (inRb_iff hi c).mp hcr
    have hPl : (inLb lo o.val && decide (o.val ≤ c)) = false := by
      rcases ho with h1 | h1
      · simp [inLb, h1]
      · by_cases hle : o.val ≤ c
        · exact absurd (lt_of_le_of_lt (WithTop.coe_le_coe.mpr hle) hcr') h1
        · simp [hle]
    have hPr : (decide (c < o.val) && inRb hi o.val) = false := by
      rcases ho with h1 | h1
      · by_cases hgt : c < o.val
        · exact absurd (lt_trans hcl' (WithBot.coe_lt_coe.mpr hgt)) h1
        · simp [hgt]
      · simp [inRb, h1]
    refine Inv.node hcl hcr ?_ ?_ ?_ ?_
    · rw [hl, distOfB_append_single]
      funext lab
      simp [hPl]
    · rw [hr, distOfB_append_single]
      funext lab
      simp [hPr]
    · refine ihl ?_
      simp only [Bool.and_eq_true, not_and_or, inLb_iff, inRb_iff]
      rcases ho with h1 | h1
      · exact Or.inl h1
      · refine Or.inr ?_
        intro hlt
        exact h1 (lt_trans (WithTop.coe_lt_coe.mpr (WithTop.coe_lt_coe.mp hlt)) hcr')
    · refine ihr ?_
      simp only [Bool.and_eq_true, not_and_or, inLb_iff, inRb_iff]
      rcases ho with h1 | h1
      · refine Or.inl ?_
        intro hlt
        exact h1 (lt_trans hcl' ((WithBot.coe_lt_coe.mpr (WithBot.coe_lt_coe.mp hlt))))
      · exact Or.inr h1

/-- Inserting a matching observation turns the append into a `+= weight`. -/
theorem distAdd_snoc (os : List Obs) (o : Obs) (p : ℚ → Bool) (hp : p o.val = true) :
    distAdd (distOfB os p) o.label o.weight = distOfB (os ++ [o]) p := by
  rw [distOfB_append_single]
  funext l
  by_cases hlab : l = o.label
  · simp [distAdd, hlab, hp]
  · simp [distAdd, hlab, hp, Ne.symm hlab]

/-- Appending a non-matching observation leaves the distribution alone. -/
theorem distOfB_snoc_false (os : List Obs) (o : Obs) (p : ℚ → Bool)
    (hp : p o.val = false) :
    distOfB (os ++ [o]) p = distOfB os p := by
  rw [distOfB_append_single]
  funext lab
  simp [hp]

/-- A single matching observation over an otherwise non-matching history. -/
theorem distSingle_snoc (os : List Obs) (o : Obs) (p : ℚ → Bool)
    (hp : p o.val = true) (hz : ∀ o' ∈ os, p o'.val = false) :
    distOfB (os ++ [o]) p = distSingle o.label o.weight := by
  rw [distOfB_append_single, distOfB_eq_zero os p hz]
  funext l
  by_cases hlab : l = o.label
  · simp [distSingle, hlab, hp]
  · simp [distSingle, hlab, hp, Ne.symm hlab]

/-- `insert_value` maintains the structural invariant for an in-range
observation. -/
theorem inv_insert (os : List Obs) (o : Obs) :
    ∀ {lo hi t}, Inv os lo hi t →
      (inLb lo o.val && inRb hi o.val) = true →
      Inv (os ++ [o]) lo hi (t.insertValue o.val o.label o.weight) := by
  intro lo hi t h
  induction h with
  | @nil lo hi h =>
    intro ho
    simp only [Bool.and_eq_true, inLb_iff, inRb_iff] at ho
    obtain ⟨ho1, ho2⟩ := ho
    simp only [BTree.insertValue]
    have hout : ∀ o' ∈ os, ∀ (p : ℚ → Bool),
        (p o'.val = true → lo < (o'.val : WithBot ℚ) ∧ (o'.val : WithTop ℚ) < hi) →
        p o'.val = false := by
      intro o' ho' p himp
      by_cases hp : p o'.val = true
      · obtain ⟨h1, h2⟩ := himp hp
        exact absurd (by simp only [Bool.and_eq_true, inLb_iff, inRb_iff]; exact ⟨h1, h2⟩)
          (h o' ho')
      · exact Bool.eq_false_iff.mpr hp
    refine Inv.node ((inLb_iff _ _).mpr ho1) ((inRb_iff _ _).mpr ho2) ?_ ?_ ?_ ?_
    · rw [distSingle_snoc os o _ (by simp [inLb_iff, ho1]) ?_]
      intro o' ho'
      refine hout o' ho' (fun v => inLb lo v && decide (v ≤ o.val)) ?_
      intro hp
      simp only [Bool.and_eq_true, inLb_iff, decide_eq_true_eq] at hp
      exact ⟨hp.1, lt_of_le_of_lt (WithTop.coe_le_coe.mpr hp.2) ho2⟩
    · rw [distOfB_snoc_false os o _ (by simp), distOfB_eq_zero os _ ?_]
      · rfl
      · intro o' ho'
        refine hout o' ho' (fun v => decide (o.val < v) && inRb hi v) ?_
        intro hp
        simp only [Bool.and_eq_true, inRb_iff, decide_eq_true_eq] at hp
        exact ⟨lt_trans ho1 (WithBot.coe_lt_coe.mpr hp.1), hp.2⟩
    · refine Inv.nil ?_
      intro o' ho'
      rcases List.mem_append.mp ho' with h1 | h1
      · intro hc
        simp only [Bool.and_eq_true, inLb_iff, inRb_iff] at hc
        exact absurd (by
          simp only [Bool.and_eq_true, inLb_iff, inRb_iff]
          exact ⟨hc.1, lt_trans (WithTop.coe_lt_coe.mpr (WithTop.coe_lt_coe.mp hc.2)) ho2⟩)
          (h o' h1)
      · simp only [List.mem_singleton] at h1
        subst h1
        simp [inRb]
    · refine Inv.nil ?_
      intro o' ho'
      rcases List.mem_append.mp ho' with h1 | h1
      · intro hc
        simp only [Bool.and_eq_true, inLb_iff, inRb_iff] at hc
        exact absurd (by
          simp only [Bool.and_eq_true, inLb_iff, inRb_iff]
          exact ⟨lt_trans ho1 (WithBot.coe_lt_coe.mpr (WithBot.coe_lt_coe.mp hc.1)), hc.2⟩)
          (h o' h1)
      · simp only [List.mem_singleton] at h1
        subst h1
        simp [inLb]
  | @node lo hi c cl cr l r hcl hcr hl hr hsubl hsubr ihl ihr =>
    intro ho
    simp only [Bool.and_eq_true, inLb_iff, inRb_iff] at ho
    obtain ⟨ho1, ho2⟩ := ho
    subst hl
    subst hr
    rcases lt_trichotomy o.val c with hv | hv | hv
    · simp only [BTree.insertValue, if_neg (ne_of_lt hv), if_pos hv]
      refine Inv.node hcl hcr ?_ ?_ ?_ ?_
      · rw [distAdd_snoc os o _ ?_]
        simp only [Bool.and_eq_true, inLb_iff, decide_eq_true_eq]
        exact ⟨ho1, le_of_lt hv⟩
      · rw [distOfB_snoc_false os o _ ?_]
        simp [not_lt.mpr (le_of_lt hv)]
      · refine ihl ?_
        simp only [Bool.and_eq_true, inLb_iff, inRb_iff]
        exact ⟨ho1, WithTop.coe_lt_coe.mpr hv⟩
      · refine inv_snoc_out os o hsubr ?_
        simp only [Bool.and_eq_true, not_and_or, inLb_iff]
        exact Or.inl (fun hc => absurd (WithBot.coe_lt_coe.mp hc) (not_lt.mpr (le_of_lt hv)))
    · simp only [BTree.insertValue, if_pos hv]
      refine Inv.node hcl hcr ?_ ?_ ?_ ?_
      · rw [distAdd_snoc os o _ ?_]
        simp only [Bool.and_eq_true, inLb_iff, decide_eq_true_eq]
        exact ⟨ho1, le_of_eq hv⟩
      · rw [distOfB_snoc_false os o _ ?_]
        simp [hv]
      · refine inv_snoc_out os o hsubl ?_
        simp only [Bool.and_eq_true, not_and_or, inRb_iff]
        exact Or.inr (fun hc => absurd (WithTop.coe_lt_coe.mp hc) (by simp [hv]))
      · refine inv_snoc_out os o hsubr ?_
        simp only [Bool.and_eq_true, not_and_or, inLb_iff]
        exact Or.inl (fun hc => absurd (WithBot.coe_lt_coe.mp hc) (by simp [hv]))
    · simp only [BTree.insertValue, if_neg (ne_of_gt hv), if_neg (not_lt.mpr (le_of_lt hv))]
      refine Inv.node hcl hcr ?_ ?_ ?_ ?_
      · rw [distOfB_snoc_false os o _ ?_]
        simp [not_le.mpr hv]
      · rw [distAdd_snoc os o _ ?_]
        simp only [Bool.and_eq_true, inRb_iff, decide_eq_true_eq]
        exact ⟨hv, ho2⟩
      · refine inv_snoc_out os o hsubl ?_
        simp only [Bool.and_eq_true, not_and_or, inRb_iff]
        exact Or.inr (fun hc => absurd (WithTop.coe_lt_coe.mp hc) (not_lt.mpr (le_of_lt hv)))
      · refine ihr ?_
        simp only [Bool.and_eq_true, inLb_iff, inRb_iff]
        exact ⟨WithBot.coe_lt_coe.mpr hv, ho2⟩

/-- The tree built from the whole observation list satisfies the invariant
over the full interval. -/
theorem inv_buildTree_aux :
    ∀ (rest acc : List Obs) (t : BTree), Inv acc ⊥ ⊤ t →
      Inv (acc ++ rest) ⊥ ⊤
        (rest.foldl (fun t o => t.insertValue o.val o.label o.weight) t) := by
  intro rest
  induction rest with
  | nil =>
    intro acc t h
    simpa using h
  | cons o rest ih =>
    intro acc t h
    have hstep := inv_insert acc o h (by simp [inLb, inRb, WithBot.bot_lt_coe])
    have := ih (acc ++ [o]) _ hstep
    simpa using this

/-- The observer's tree after any update sequence satisfies the invariant. -/
theorem inv_buildTree (os : List Obs) : Inv os ⊥ ⊤ (buildTree os) := by
  have := inv_buildTree_aux os [] .nil (Inv.nil (by simp))
  simpa [buildTree] using this

/-! #### Search correctness -/

/-- The best-so-far update keeps the maximum merit (first-seen wins ties,
strict `>` replacement). -/
theorem bestIf_merit (best : Suggestion) (c : ℚ) (ld rd : ClassDist) (m : ℚ) :
    ((if ((m : ℚ) : WithBot ℚ) > best.merit
        then (⟨some c, ld, rd, (m : ℚ)⟩ : Suggestion) else best).merit)
      = max best.merit ((m : ℚ) : WithBot ℚ) := by
  split
  · next h => exact (max_eq_right (le_of_lt h)).symm
  · next h => exact (max_eq_left (not_lt.mp h)).symm

/-- Correctness of `_search_for_best_split_option`: under the structural
invariant and the parent-context precondition, the returned merit is the
maximum of the incoming best merit and the merits of the brute-force
partitions at every cut point of the subtree.  The delta propagation
(`parent_left − child.right_counts − exact_parent_dist`, etc.) is exact. -/
theorem search_merit (crit : Criterion) (pre : ClassDist) (os : List Obs) :
    ∀ (t : BTree) (lo : WithBot ℚ) (hi : WithTop ℚ) (best : Suggestion)
      (apl : ClassDist) (plr : Option (ClassDist × ClassDist)) (lc : Bool),
      Inv os lo hi t → ParentOK os lo hi apl plr lc →
      (idealSearchForBestSplitOption crit pre t best apl plr lc).merit
        = max best.merit (treeMerits crit pre os t) := by
  intro t
  induction t with
  | nil =>
    intro lo hi best apl plr lc _ _
    simp only [idealSearchForBestSplitOption, treeMerits]
    exact (max_eq_left bot_le).symm
  | node c cl cr l r ihl ihr =>
    intro lo hi best apl plr lc hInv hP
    cases hInv with
    | node hcl hcr hl hr hsubl hsubr =>
      have hcl' := (inLb_iff lo c).mp hcl
      have hcr' := (inRb_iff hi c).mp hcr
      rcases plr with _ | ⟨pl, pr⟩
      · -- root call
        obtain ⟨hlo, hhi⟩ := hP
        subst hlo
        subst hhi
        have hld : cl = leftDistOf os c := by
          rw [hl]
          exact distOfB_congr os _ _ (fun v => by simp [inLb, leftDistOf, WithBot.bot_lt_coe])
        have hrd : cr = rightDistOf os c := by
          rw [hr]
          exact distOfB_congr os _ _ (fun v => by simp [inRb, rightDistOf])
        simp only [idealSearchForBestSplitOption, treeMerits]
        rw [hld, hrd]
        rw [ihr (↑c) ⊤ _ (leftDistOf os c)
          (some (leftDistOf os c, rightDistOf os c)) false hsubr ⟨c, rfl, rfl, rfl⟩]
        rw [ihl ⊥ (↑c) _ (leftDistOf os c)
          (some (leftDistOf os c, rightDistOf os c)) true hsubl
          ⟨c, rfl, rfl, rfl, by rw [← hld]; exact hl⟩]
        rw [bestIf_merit]
        rw [max_assoc, max_assoc]
        conv_rhs => rw [max_assoc]
      · cases lc with
        | true =>
          obtain ⟨p, hhi, hpl, hpr, hapl⟩ := hP
          dsimp only at hpl hpr
          subst hhi
          have hcp : c < p := WithTop.coe_lt_coe.mp hcr'
          have hcr2 : cr = distOfB os (fun u => decide (c < u) && decide (u < p)) := by
            rw [hr]
            exact distOfB_congr os _ _ (fun v => by simp [inRb])
          have hapl2 : apl = cl +
              (distOfB os (fun u => decide (c < u) && decide (u < p)) +
                distOfB os (fun u => decide (u = p))) := by
            rw [hapl, hl]
            exact split_apl os lo c p hcl' hcp
          have hLD : pl - cr - (apl - cl - cr) = leftDistOf os c := by
            rw [hpl, hcr2, hapl2, split_left_le os c p hcp]
            abel
          have hRD : pr + cr + (apl - cl - cr) = rightDistOf os c := by
            rw [hpr, hcr2, hapl2, split_left_gt os c p hcp]
            abel
          simp only [idealSearchForBestSplitOption, treeMerits]
          rw [hLD, hRD]
          simp only [reduceIte]
          rw [ihr (↑c) (↑p) _ cl (some (leftDistOf os c, rightDistOf os c)) false hsubr
            ⟨c, rfl, rfl, rfl⟩]
          rw [ihl lo (↑c) _ cl (some (leftDistOf os c, rightDistOf os c)) true hsubl
            ⟨c, rfl, rfl, rfl, hl⟩]
          rw [bestIf_merit]
          rw [max_assoc, max_assoc]
          conv_rhs => rw [max_assoc]
        | false =>
          obtain ⟨p, hlo, hpl, hpr⟩ := hP
          dsimp only at hpl hpr
          subst hlo
          have hpc : p < c := WithBot.coe_lt_coe.mp hcl'
          have hcl2 : cl = distOfB os (fun u => decide (p < u) && decide (u ≤ c)) := by
            rw [hl]
            exact distOfB_congr os _ _ (fun v => by simp [inLb])
          have hLD : pl + cl = leftDistOf os c := by
            rw [hpl, hcl2, split_right_le os p c hpc]
          have hRD : pr - cl = rightDistOf os c := by
            rw [hpr, hcl2, split_right_gt os p c hpc]
            abel
          simp only [idealSearchForBestSplitOption, treeMerits]
          rw [hLD, hRD]
          simp only [Bool.false_eq_true, if_false]
          rw [ihr (↑c) hi _ cl (some (leftDistOf os c, rightDistOf os c)) false hsubr
            ⟨c, rfl, rfl, rfl⟩]
          rw [ihl (↑p) (↑c) _ cl (some (leftDistOf os c, rightDistOf os c)) true hsubl
            ⟨c, rfl, rfl, rfl, hl⟩]
          rw [bestIf_merit]
          rw [max_assoc, max_assoc]
          conv_rhs => rw [max_assoc]

/-! #### C1: split-search exactness -/

/-- `listMax` unfolds on cons. -/
theorem listMax_cons (a : ℚ) (t : List ℚ) :
    listMax (a :: t) = max (a : WithBot ℚ) (listMax t) := rfl

/-- `listMax` distributes over append. -/
theorem listMax_append (l1 l2 : List ℚ) :
    listMax (l1 ++ l2) = max (listMax l1) (listMax l2) := by
  induction l1 with
  | nil =>
    show listMax l2 = max ⊥ (listMax l2)
    exact (max_eq_right bot_le).symm
  | cons a l ih =>
    simp only [List.cons_append, listMax_cons, ih, max_assoc]

/-- The recursive merit supremum is the maximum over the cut-point list. -/
theorem treeMerits_eq_listMax (crit : Criterion) (pre : ClassDist) (os : List Obs) :
    ∀ t : BTree, treeMerits crit pre os t =
      listMax ((cutPoints t).map (fun c => crit pre (leftDistOf os c) (rightDistOf os c)))
  | .nil => rfl
  | .node c cl cr l r => by
    simp only [treeMerits, cutPoints, List.map_cons, List.map_append, listMax_cons,
      listMax_append]
    rw [treeMerits_eq_listMax crit pre os l, treeMerits_eq_listMax crit pre os r,
      max_assoc]

/-- The intended algorithm is exact: for every split criterion and every
update sequence, the idealized (exact-arithmetic) delta-propagation search
returns a suggestion whose merit equals the maximum, over every cut point
stored in the tree, of the criterion applied to the brute-force partition
of all raw observations at that cut point.  Together with
`c1_stale_counter_divergence` this pins the divergence of the shipped code
on the `Counter`/`dict.update` mechanics, not on the algorithm the code's
comments describe. -/
theorem ideal_split_search_exact (crit : Criterion) (pre : ClassDist) (os : List Obs) :
    (idealBestEvaluatedSplitSuggestion crit pre (buildTree os)).merit =
      listMax ((cutPoints (buildTree os)).map
        (fun c => crit pre (leftDistOf os c) (rightDistOf os c))) := by
  have h := search_merit crit pre os (buildTree os) ⊥ ⊤ initialSuggestion
    ClassDist.zero none false (inv_buildTree os) ⟨rfl, rfl⟩
  rw [idealBestEvaluatedSplitSuggestion, h, treeMerits_eq_listMax]
  show max (⊥ : WithBot ℚ) _ = _
  exact max_eq_right bot_le

/-- Evaluation helper: `⊥` is the identity of `max` in `WithBot ℚ`. -/
theorem withBot_max_bot (a : WithBot ℚ) : max a ⊥ = a := max_eq_left bot_le

/-- Evaluation helper: `max` of coerced rationals. -/
theorem withBot_max_coe (a b : ℚ) :
    max (a : WithBot ℚ) (b : WithBot ℚ) = ((max a b : ℚ) : WithBot ℚ) := by
  rcases le_total a b with h | h
  · rw [max_eq_right h, max_eq_right (WithBot.coe_le_coe.mpr h)]
  · rw [max_eq_left h, max_eq_left (WithBot.coe_le_coe.mpr h)]

/-- Evaluation helper: `listMax` of the empty list. -/
theorem listMax_nil : listMax [] = ⊥ := rfl

/-- Evaluation helper: merit-literal comparison in `WithBot ℚ`. -/
theorem wbBotLt0 : (⊥ : WithBot ℚ) < (0 : WithBot ℚ) := by
  exact_mod_cast WithBot.bot_lt_coe (0 : ℚ)

/-- Evaluation helper: merit-literal comparison in `WithBot ℚ`. -/
theorem wbLt01 : (0 : WithBot ℚ) < (1 : WithBot ℚ) := by
  exact_mod_cast (by norm_num : (0 : ℚ) < 1)

/-- Evaluation helper: merit-literal comparison in `WithBot ℚ`. -/
theorem wbLt12 : (1 : WithBot ℚ) < (2 : WithBot ℚ) := by
  exact_mod_cast (by norm_num : (1 : ℚ) < 2)

/-- C1 evaluated on the failing input: with weight-1 observations (5, B),
(4, A), (3, B) and the criterion returning the right-hand weight of class
A, the code's `best_evaluated_split_suggestion` returns merit 2 — the
`Counter` subtraction drops the exact-zero difference of class A at the
left descent, `dict.update` keeps the stale entry, and the right
distributions at cuts 4 and 3 come out as `{A:1, B:1}` and `{A:2, B:2}`
instead of the true `{B:1}` and `{A:1, B:1}` — while the maximum of the
criterion over the brute-force partitions at the stored cut points is 1.
The incremental search is therefore not equivalent to the naive re-scan. -/
theorem c1_stale_counter_divergence :
    (bestEvaluatedSplitSuggestion critRightA emptyDict (buildTree c1Obs)).merit
        = ((2 : ℚ) : WithBot ℚ) ∧
    listMax ((cutPoints (buildTree c1Obs)).map
      (fun c => critRightA emptyDict (pyLeftDistOf c1Obs c) (pyRightDistOf c1Obs c)))
        = ((1 : ℚ) : WithBot ℚ) ∧
    ¬ (bestEvaluatedSplitSuggestion critRightA emptyDict (buildTree c1Obs)).merit
        = listMax ((cutPoints (buildTree c1Obs)).map
            (fun c => critRightA emptyDict (pyLeftDistOf c1Obs c) (pyRightDistOf c1Obs c))) := by
  have h1 : (bestEvaluatedSplitSuggestion critRightA emptyDict (buildTree c1Obs)).merit
      = ((2 : ℚ) : WithBot ℚ) := by
    norm_num [bestEvaluatedSplitSuggestion, searchForBestSplitOption, pyInitialSuggestion,
      buildTree, BTree.insertValue, c1Obs, critRightA, emptyDict, dictUpdate, dictVal,
      counterAddD, counterSubD, ClassDist.zero, distAdd, distSingle,
      wbBotLt0, wbLt01, wbLt12]
  have hcut : cutPoints (buildTree c1Obs) = [5, 4, 3] := by
    norm_num [cutPoints, buildTree, BTree.insertValue, c1Obs]
  have hb10 : ((1 : ℕ) == 0) = false := rfl
  have hb00 : ((0 : ℕ) == 0) = true := rfl
  have f5 : critRightA emptyDict (pyLeftDistOf c1Obs 5) (pyRightDistOf c1Obs 5) = 0 := by
    norm_num [critRightA, pyRightDistOf, pyDistOfB, distOfB, c1Obs, List.filter, hb10, hb00]
  have f4 : critRightA emptyDict (pyLeftDistOf c1Obs 4) (pyRightDistOf c1Obs 4) = 0 := by
    norm_num [critRightA, pyRightDistOf, pyDistOfB, distOfB, c1Obs, List.filter, hb10, hb00]
  have f3 : critRightA emptyDict (pyLeftDistOf c1Obs 3) (pyRightDistOf c1Obs 3) = 1 := by
    norm_num [critRightA, pyRightDistOf, pyDistOfB, distOfB, c1Obs, List.filter, hb10, hb00]
  have h2 : listMax ((cutPoints (buildTree c1Obs)).map
      (fun c => critRightA emptyDict (pyLeftDistOf c1Obs c) (pyRightDistOf c1Obs c)))
      = ((1 : ℚ) : WithBot ℚ) := by
    rw [hcut]
    simp only [List.map_cons, List.map_nil, f5, f4, f3]
    rw [listMax_cons, listMax_cons, listMax_cons, listMax_nil, withBot_max_bot,
      withBot_max_coe, withBot_max_coe]
    norm_num
  refine ⟨h1, h2, ?_⟩
  rw [h1, h2]
  simp

/-! #### C2: weight conservation -/

/-- Inserting value 1 then value 0 (weight 1 each) stores total weight 3
across the whole tree — the second observation is counted at the root and
again at the left child — while only weight 2 was inserted.  This refutes
the whole-tree sum form of C2. -/
theorem c2_counterexample :
    treeWeightSum (labelsOf c2Obs) (buildTree c2Obs) = 3 ∧
    totalWeight c2Obs = 2 ∧
    ¬ treeWeightSum (labelsOf c2Obs) (buildTree c2Obs) = totalWeight c2Obs := by
  have h1 : treeWeightSum (labelsOf c2Obs) (buildTree c2Obs) = 3 := by
    norm_num [treeWeightSum, buildTree, BTree.insertValue, labelsOf, c2Obs,
      sumDistOver, distAdd, distSingle, ClassDist.zero, List.dedup]
  have h2 : totalWeight c2Obs = 2 := by
    norm_num [totalWeight, c2Obs]
  refine ⟨h1, h2, ?_⟩
  rw [h1, h2]
  norm_num

/-- A single distribution value from the brute-force scan is non-negative
when all weights are. -/
theorem distOfB_nonneg (os : List Obs) (p : ℚ → Bool) (lab : Label)
    (hw : ∀ o ∈ os, 0 ≤ o.weight) : 0 ≤ distOfB os p lab := by
  induction os with
  | nil => simp [distOfB]
  | cons o os ih =>
    have h1 := hw o (by simp)
    have h2 := ih (fun o' ho' => hw o' (by simp [ho']))
    simp only [distOfB, List.map_cons, List.sum_cons] at h2 ⊢
    have : (0 : ℚ) ≤ if (p o.val && (o.label == lab)) = true then o.weight else 0 := by
      split
      · exact h1
      · exact le_refl 0
    linarith

/-- Every stored class weight in an invariant-satisfying tree is
non-negative when all inserted weights are. -/
theorem inv_nonneg (os : List Obs) (hw : ∀ o ∈ os, 0 ≤ o.weight) :
    ∀ {lo hi t}, Inv os lo hi t → nodesNonneg t := by
  intro lo hi t h
  induction h with
  | nil _ => trivial
  | @node lo hi c cl cr l r hcl hcr hl hr hsubl hsubr ihl ihr =>
    refine ⟨?_, ihl, ihr⟩
    intro lab
    constructor
    · rw [hl]
      exact distOfB_nonneg os _ lab hw
    · rw [hr]
      exact distOfB_nonneg os _ lab hw

/-- Sums of pointwise sums split. -/
theorem list_sum_map_add {α : Type} (l : List α) (f g : α → ℚ) :
    (l.map (fun a => f a + g a)).sum = (l.map f).sum + (l.map g).sum := by
  induction l with
  | nil => simp
  | cons a l ih =>
    simp only [List.map_cons, List.sum_cons, ih]
    ring

/-- Exchanging the two nested list sums. -/
theorem list_sum_swap (L : List Label) (os : List Obs) (g : Label → Obs → ℚ) :
    (L.map (fun lab => (os.map (g lab)).sum)).sum =
      (os.map (fun o => (L.map (fun lab => g lab o)).sum)).sum := by
  induction L with
  | nil => simp
  | cons a L ih =>
    simp only [List.map_cons, List.sum_cons, ih, List.map_nil, List.sum_nil]
    rw [← list_sum_map_add]

/-- A sum of label-matching indicators over labels not containing `a`. -/
theorem sum_zero_of_not_mem (w : ℚ) (a : Label) :
    ∀ L : List Label, a ∉ L →
      (L.map (fun lab => if (a == lab) = true then w else 0)).sum = 0 := by
  intro L
  induction L with
  | nil => simp
  | cons b L ih =>
    intro hnot
    have hab : ¬(a = b) := fun h => hnot (by simp [h])
    have ih' := ih (fun h => hnot (by simp [h]))
    simp only [List.map_cons, List.sum_cons, ih']
    simp [hab]

/-- Summing the label-matching indicator over a duplicate-free list
containing `a` yields the weight once. -/
theorem sum_single_label (w : ℚ) (a : Label) :
    ∀ L : List Label, L.Nodup → a ∈ L →
      (L.map (fun lab => if (a == lab) = true then w else 0)).sum = w := by
  intro L
  induction L with
  | nil => intro _ h; cases h
  | cons b L ih =>
    intro hnd hmem
    rcases List.mem_cons.mp hmem with h | h
    · subst h
      have hnot : a ∉ L := (List.nodup_cons.mp hnd).1
      simp only [List.map_cons, List.sum_cons, sum_zero_of_not_mem w a L hnot]
      simp
    · have hne : ¬(a = b) := by
        intro hab
        subst hab
        exact (List.nodup_cons.mp hnd).1 h
      have := ih (List.nodup_cons.mp hnd).2 h
      simp only [List.map_cons, List.sum_cons, this]
      simp [hne]

/-- Summing a brute-force distribution over the observed label universe
counts each matching observation's weight exactly once. -/
theorem sumDistOver_distOfB (os : List Obs) (p : ℚ → Bool) :
    sumDistOver (labelsOf os) (distOfB os p) =
      (os.map (fun o => if p o.val then o.weight else 0)).sum := by
  unfold sumDistOver distOfB
  rw [list_sum_swap]
  congr 1
  apply List.map_congr_left
  intro o ho
  by_cases hp : p o.val = true
  · simp only [hp, Bool.true_and, if_true]
    exact sum_single_label o.weight o.label (labelsOf os) (List.nodup_dedup _)
      (List.mem_dedup.mpr (List.mem_map.mpr ⟨o, ho, rfl⟩))
  · have hp' : p o.val = false := Bool.eq_false_iff.mpr hp
    simp [hp']

/-- The `val ≤ c` / `val > c` indicator sums add up to the total weight. -/
theorem sum_partition (os : List Obs) (c : ℚ) :
    (os.map (fun o => if decide (o.val ≤ c) then o.weight else 0)).sum +
      (os.map (fun o => if decide (c < o.val) then o.weight else 0)).sum
      = totalWeight os := by
  rw [← list_sum_map_add]
  unfold totalWeight
  congr 1
  apply List.map_congr_left
  intro o _
  by_cases h : o.val ≤ c
  · simp [h, not_lt.mpr h]
  · simp [h, lt_of_not_le h]

/-- C2 (amended): every stored class weight is non-negative, and
`sum(class_count_left) + sum(class_count_right)` **at the root** equals the
total weight ever inserted (each observation is counted once per node on
its insertion path, so the whole-tree sum can exceed the total — see the
counterexample). -/
theorem c2_weight_conservation (os : List Obs) (hw : ∀ o ∈ os, 0 ≤ o.weight) :
    nodesNonneg (buildTree os) ∧
    rootWeightSum (labelsOf os) (buildTree os) = totalWeight os := by
  have hInv := inv_buildTree os
  refine ⟨inv_nonneg os hw hInv, ?_⟩
  generalize ht : buildTree os = t at hInv
  cases hInv with
  | nil h =>
    have hos : os = [] := by
      cases os with
      | nil => rfl
      | cons o os' =>
        exact absurd (by simp [inLb, inRb, WithBot.bot_lt_coe])
          (h o (by simp))
    subst hos
    simp [rootWeightSum, totalWeight]
  | @node lo hi c cl cr l r hcl hcr hl hr hsubl hsubr =>
    have hld : cl = leftDistOf os c := by
      rw [hl]
      exact distOfB_congr os _ _ (fun v => by simp [inLb, leftDistOf, WithBot.bot_lt_coe])
    have hrd : cr = rightDistOf os c := by
      rw [hr]
      exact distOfB_congr os _ _ (fun v => by simp [inRb, rightDistOf])
    show sumDistOver (labelsOf os) cl + sumDistOver (labelsOf os) cr = totalWeight os
    rw [hld, hrd, leftDistOf, rightDistOf, sumDistOver_distOfB, sumDistOver_distOfB,
      sum_partition]

/-- Witness for `c2_weight_conservation` on the two-observation sequence. -/
theorem c2_weight_conservation_witness :
    (∀ o ∈ c2Obs, 0 ≤ o.weight) ∧
    (nodesNonneg (buildTree c2Obs) ∧
      rootWeightSum (labelsOf c2Obs) (buildTree c2Obs) = totalWeight c2Obs) :=
  ⟨by intro o ho; fin_cases ho <;> norm_num [c2Obs],
    c2_weight_conservation c2Obs (by intro o ho; fin_cases ho <;> norm_num [c2Obs])⟩

end RiverSpec
